import Mathlib

/-!
# Verification of the claude-memory knowledge-graph storage core

Shallow embedding of the storage core of the claude-memory repository
(scope classifier, SQLite-backed entity/fact store, dual-layer merge
coordinator, promotion workflow) together with proofs and refutations of
the specification claims.

Conventions of the embedding:
* JavaScript numbers used as ids/dimensions are modelled as `Nat`,
  similarity scores as `Int` (only comparisons of scores matter to the
  merge logic), and `Float32Array` embedding vectors as `List Int`.
* SQL statements are modelled row-by-row over explicit list-based tables;
  `ORDER BY created_at DESC` clauses are dropped where every claim about
  the result is set-level.
* Async functions are modelled as pure state-passing functions; fallible
  operations return `Except String`.
-/

namespace ClaudeMemory

/-- An embedding vector (`Float32Array` in the source). -/
abbrev Emb := List Int

deriving instance DecidableEq for Except

/-! ## Scope classifier (src/classify.ts) -/

/-- Scope of a fact candidate: "global" or "project". -/
inductive Scope where
  | global
  | project
deriving DecidableEq, Repr

/-- `GLOBAL_PREDICATES` from src/classify.ts (a JS `Set`, modelled as a list
with membership). -/
def GLOBAL_PREDICATES : List String :=
  ["uses", "depends_on", "deployed_on", "written_in", "has_version",
   "runs_on", "built_with", "integrates_with", "prefers", "convention"]

/-- `PROJECT_PREDICATES` from src/classify.ts. -/
def PROJECT_PREDICATES : List String :=
  ["blocked_by", "workaround_for", "todo", "bug_in", "fixed_by",
   "needs_refactor", "has_pattern", "test_for", "config_for"]

/-- JavaScript `String.prototype.toLowerCase`, restricted to ASCII (every
string this development evaluates it on is ASCII). -/
def toLowerChars (l : List Char) : List Char := l.map Char.toLower

/-- JavaScript `String.prototype.trim`: drop leading and trailing
whitespace. -/
def trimChars (l : List Char) : List Char :=
  ((l.dropWhile Char.isWhitespace).reverse.dropWhile Char.isWhitespace).reverse

/-- `predicate.toLowerCase().trim()` from `classifyScope`. -/
def jsNormalize (s : String) : String :=
  String.mk (trimChars (toLowerChars s.data))

/-- `classifyScope` from src/classify.ts: lower-case and trim the predicate,
then look it up in the two fixed sets; unknown predicates default to
`project`. -/
def classifyScope (predicate : String) : Scope :=
  if jsNormalize predicate ∈ GLOBAL_PREDICATES then Scope.global
  else if jsNormalize predicate ∈ PROJECT_PREDICATES then Scope.project
  else Scope.project

/-! ## SQLite store state (src/db.ts)

The `entities`, `facts` and `meta` tables and the two vec0 virtual tables
are modelled as explicit lists; `AUTOINCREMENT` ids as a `next…Id`
counter. -/

/-- A row of the `facts` table.  The v0.5 schema also carries the
`scope_candidate` column (spec §3: scope tag stored on the fact). -/
structure FactRow where
  id : Nat
  subjectId : Nat
  predicate : String
  objectId : Nat
  content : String
  context : String
  source : String
  scopeCandidate : Option Scope
deriving DecidableEq, Repr

/-- The persistent state of one SQLite store. -/
structure DbState where
  entities : List (Nat × String)
  nextEntityId : Nat
  entityEmbeddings : List (Nat × Emb)
  facts : List FactRow
  nextFactId : Nat
  factEmbeddings : List (Nat × Emb)
  metaDim : Option Nat
deriving DecidableEq, Repr

/-- A fresh database file: empty tables, `AUTOINCREMENT` counters at 1,
no recorded embedding dimension. -/
def emptyDb : DbState :=
  { entities := [], nextEntityId := 1, entityEmbeddings := [],
    facts := [], nextFactId := 1, factEmbeddings := [], metaDim := none }

/-- The error message thrown by `initDb` (src/db.ts lines 72-76) when the
persisted embedding dimension differs from the configured one. -/
def dimMismatchMsg (existing config : Nat) : String :=
  "Embedding dimension mismatch: database was created with dim=" ++
  toString existing ++ ", but current config has dim=" ++
  toString config ++ ". Either use EMBEDDING_DIM=" ++ toString existing ++
  " or start with a fresh database."

/-- The embedding-dimension validation performed by `initDb`
(src/db.ts lines 64-81): if the `meta` table records a dimension that
differs from the configured one, construction fails with
`dimMismatchMsg`; if none is recorded, the configured dimension is
recorded; otherwise the store opens unchanged. -/
def initDb (persisted : DbState) (configDim : Nat) : Except String DbState :=
  match persisted.metaDim with
  | some existing =>
    if existing ≠ configDim then
      Except.error (dimMismatchMsg existing configDim)
    else
      Except.ok persisted
  | none =>
    Except.ok { persisted with metaDim := some configDim }

/-! ## Search results and the dual-layer merge of `searchFacts`
(src/dual.ts `createDualBackend.searchFacts`) -/

/-- A row returned by `searchFacts` (src/types.ts `SearchResult`).  The
`score` is `1 - cosine_distance`; only score comparisons matter to the
merge logic, so it is modelled as an `Int`. -/
structure SearchResult where
  subject : String
  predicate : String
  object : String
  fact : String
  context : String
  source : String
  score : Int
  sourceLayer : Option String := none
deriving DecidableEq, Repr

/-- The dedup key of `createDualBackend.searchFacts`:
subject|predicate|object. -/
def searchKey (r : SearchResult) : String :=
  r.subject ++ "|" ++ r.predicate ++ "|" ++ r.object

/-- `r.sourceLayer = layer` tagging done by the dual backend before
merging. -/
def tagLayer (layer : String) (r : SearchResult) : SearchResult :=
  { r with sourceLayer := some layer }

/-- The ordering used by the JS `sort((a, b) => b.score - a.score)`:
descending by score.  `Array.prototype.sort` is stable, and
`List.insertionSort` with this relation is exactly the stable descending
sort (ties keep original order). -/
def scoreGE (a b : SearchResult) : Prop := b.score ≤ a.score

instance : DecidableRel scoreGE := fun a b =>
  inferInstanceAs (Decidable (b.score ≤ a.score))

instance : IsTotal SearchResult scoreGE :=
  ⟨fun a b => Int.le_total b.score a.score⟩

instance : IsTrans SearchResult scoreGE :=
  ⟨fun _ _ _ hab hbc => le_trans hbc hab⟩

/-- The `seen`-set deduplication loop of `createDualBackend.searchFacts`
(and the first-seen `Map`/`Set` merges of `graphTraverse`): keep an
element only if its key was not seen before. -/
def dedupKeysGo (key : α → String) : List String → List α → List α
  | _, [] => []
  | seen, r :: rest =>
    if key r ∈ seen then dedupKeysGo key seen rest
    else r :: dedupKeysGo key (key r :: seen) rest

/-- Both layers' results tagged with their origin layer and concatenated,
as built by `createDualBackend.searchFacts` before sorting. -/
def taggedAll (projectResults globalResults : List SearchResult) : List SearchResult :=
  projectResults.map (tagLayer "project") ++ globalResults.map (tagLayer "global")

/-- The merged list before `slice(0, limit)`: sort by score descending
(stable), then deduplicate by `searchKey` keeping the first occurrence. -/
def mergedPre (projectResults globalResults : List SearchResult) : List SearchResult :=
  dedupKeysGo searchKey [] (List.insertionSort scoreGE (taggedAll projectResults globalResults))

/-- `createDualBackend.searchFacts` (src/dual.ts): takes the two layers'
result lists, tags, concatenates, sorts by score descending, deduplicates
by subject|predicate|object keeping the first occurrence, truncates to
`limit`. -/
def mergedSearchFacts (projectResults globalResults : List SearchResult)
    (limit : Nat) : List SearchResult :=
  (mergedPre projectResults globalResults).take limit

/-- JS `Promise.all` over two already-started operations with the given
outcomes.  It rejects with the first rejection in settlement order — the
first argument's, in this synchronous embedding, matching the
sqlite-backed stores whose `close` settles in call order — and otherwise
resolves with both results.  Both operations run regardless of the
outcome. -/
def promiseAll2 {α β : Type} : Except String α → Except String β → Except String (α × β)
  | Except.error e, _ => Except.error e
  | Except.ok _, Except.error e => Except.error e
  | Except.ok a, Except.ok b => Except.ok (a, b)

/-- `createDualBackend.close` (src/dual.ts):
`await Promise.all([project.close(), global.close()])`, parameterized by
the outcome of each underlying close. -/
def dualClose (projectClose globalClose : Except String Unit) : Except String Unit :=
  Except.map (fun _ => ()) (promiseAll2 projectClose globalClose)

/-- Deduplication as worded by the spec: keep the first occurrence of
each key, dropping every later element with the same key. -/
def dedupFirstOcc (key : α → String) : List α → List α
  | [] => []
  | r :: rest =>
    r :: dedupFirstOcc key (rest.filter (fun x => decide (key x ≠ key r)))
termination_by l => l.length
decreasing_by
  simp only [List.length_cons]
  exact Nat.lt_succ_of_le (List.length_filter_le _ _)

/-! ## Store operations (src/db.ts) -/

/-- Look up an embedding row by rowid. -/
def lookupEmb (m : List (Nat × Emb)) (id : Nat) : Option Emb :=
  (m.find? (fun p => decide (p.1 = id))).map (fun p => p.2)

/-- Resolve an entity id to its name (the SQL join on `entities.id`). -/
def nameOf (s : DbState) (id : Nat) : Option String :=
  (s.entities.find? (fun e => decide (e.1 = id))).map (fun e => e.2)

/-- `findOrCreateEntity` (src/db.ts lines 167-175):
`INSERT OR IGNORE` the name, `SELECT` its id, then delete-and-insert the
entity embedding for that rowid.  Returns the id and the updated store. -/
def findOrCreateEntity (s : DbState) (name : String) (embedding : Emb) :
    Nat × DbState :=
  let s1 := if s.entities.any (fun e => decide (e.2 = name)) then s
            else { s with entities := s.entities ++ [(s.nextEntityId, name)],
                          nextEntityId := s.nextEntityId + 1 }
  let id := ((s1.entities.find? (fun e => decide (e.2 = name))).map
    (fun e => e.1)).getD 0
  (id, { s1 with entityEmbeddings :=
      s1.entityEmbeddings.filter (fun p => decide (p.1 ≠ id)) ++
        [(id, embedding)] })

/-- Parameters of `storeFact` (src/types.ts `StoreFact`). -/
structure StoreFactParams where
  subjectId : Nat
  predicate : String
  objectId : Nat
  content : String
  context : String
  source : String
  embedding : Emb
  scopeCandidate : Option Scope := none
deriving DecidableEq, Repr

/-- `storeFact` (src/db.ts lines 177-189): append a fact row and its
embedding.  With `PRAGMA foreign_keys = ON`, the insert fails when either
referenced entity id does not exist.  Persisting the `scope_candidate`
value is modelled from the spec (§3: scope tag stored on the fact; the
v0.5 db.ts carrying that column is not under src/).  `mkFactRow` is the
row the insert appends. -/
def mkFactRow (s : DbState) (p : StoreFactParams) : FactRow :=
  { id := s.nextFactId, subjectId := p.subjectId,
    predicate := p.predicate, objectId := p.objectId,
    content := p.content, context := p.context, source := p.source,
    scopeCandidate := p.scopeCandidate }

def storeFact (s : DbState) (p : StoreFactParams) : Except String (Nat × DbState) :=
  if s.entities.any (fun e => decide (e.1 = p.subjectId)) &&
     s.entities.any (fun e => decide (e.1 = p.objectId)) then
    Except.ok (s.nextFactId,
      { s with
        facts := s.facts ++ [mkFactRow s p],
        nextFactId := s.nextFactId + 1,
        factEmbeddings := s.factEmbeddings ++ [(s.nextFactId, p.embedding)] })
  else Except.error "FOREIGN KEY constraint failed"

/-! ## Graph traversal (src/db.ts `graphTraverse`) -/

/-- One expansion step of the recursive CTE: from a frontier of entity
ids, follow facts where a frontier entity is the subject (collecting
objects) and facts where it is the object (collecting subjects). -/
def neighbors (facts : List FactRow) (ids : List Nat) : List Nat :=
  (facts.filter (fun f => decide (f.subjectId ∈ ids))).map (fun f => f.objectId) ++
  (facts.filter (fun f => decide (f.objectId ∈ ids))).map (fun f => f.subjectId)

/-- Entities reachable by a path of exactly `d` fact edges (either
direction) from the given frontier. -/
def nhops (facts : List FactRow) : Nat → List Nat → List Nat
  | 0, ids => ids
  | d + 1, ids => nhops facts d (neighbors facts ids)

/-- The rows of the recursive CTE grouped by depth: the frontier at depth
0, then each expansion up to the hop bound. -/
def cteLevels (facts : List FactRow) : List Nat → Nat → List Nat
  | cur, 0 => cur
  | cur, n + 1 => cur ++ cteLevels facts (neighbors facts cur) n

/-- Case-insensitive substring containment
(`LOWER(name) LIKE '%' || LOWER(?) || '%'`). -/
def containsSub (pattern s : List Char) : Bool :=
  s.tails.any (fun t => pattern.isPrefixOf t)

/-- The accumulator of `ORDER BY LENGTH(name) ASC LIMIT 1`: keep the
entity with the strictly shortest name, first row winning ties. -/
def pickShorter (best : Option (Nat × String)) (e : Nat × String) :
    Option (Nat × String) :=
  match best with
  | none => some e
  | some b => if e.2.length < b.2.length then some e else best

/-- `fuzzyFindEntity` (src/db.ts lines 145-150): entities whose lowered
name contains the lowered query, `ORDER BY LENGTH(name) ASC LIMIT 1`;
ties between equal lengths keep the first row in table order. -/
def fuzzyFindEntity (s : DbState) (q : String) : Option (Nat × String) :=
  (s.entities.filter (fun e =>
      containsSub (toLowerChars q.data) (toLowerChars e.2.data))).foldl
    pickShorter none

/-- A fact row as returned by graph traversal (subject/object resolved to
names). -/
structure GraphFactRow where
  subject : String
  predicate : String
  object : String
  fact : String
deriving DecidableEq, Repr

/-- The result of `graphTraverse` (src/types.ts `GraphResult`). -/
structure GraphResult where
  matchedName : String
  entities : List String
  facts : List GraphFactRow
deriving DecidableEq, Repr

/-- The dedup key used for fact rows in the dual backend's graph merge. -/
def graphFactKey (f : GraphFactRow) : String :=
  f.subject ++ "|" ++ f.predicate ++ "|" ++ f.object

/-- Resolve a fact row's entity ids to names (the joins in the facts
query of `graphTraverse`). -/
def factToRow (s : DbState) (f : FactRow) : Option GraphFactRow :=
  match nameOf s f.subjectId, nameOf s f.objectId with
  | some subj, some obj =>
    some { subject := subj, predicate := f.predicate, object := obj,
           fact := f.content }
  | _, _ => none

/-- `graphTraverse` (src/db.ts lines 195-256): fuzzy-resolve the entity;
if none matches return null.  Otherwise run the recursive CTE for
`depth` hops from the match, take the distinct names of reached ids other
than the start id, and return all facts whose subject or object name lies
in {matched name} ∪ connected names.  (`ORDER BY f.created_at DESC` is
dropped; every claim about the fact list is set-level.)
`connectedNamesOf` is the `SELECT DISTINCT e.name` over the CTE rows
other than the start id. -/
def connectedNamesOf (s : DbState) (startId : Nat) (rounds : Nat) : List String :=
  dedupKeysGo (fun n => n) []
    (((cteLevels s.facts [startId] rounds).filter
      (fun i => decide (i ≠ startId))).filterMap (nameOf s))

/-- The facts query of `graphTraverse`: all facts whose subject or object
name lies in `allNames`. -/
def graphFactsOf (s : DbState) (allNames : List String) : List GraphFactRow :=
  (s.facts.filterMap (factToRow s)).filter
    (fun r => decide (r.subject ∈ allNames) || decide (r.object ∈ allNames))

def graphTraverse (s : DbState) (entityName : String) (depth : Int) :
    Option GraphResult :=
  match fuzzyFindEntity s entityName with
  | none => none
  | some (startId, matchedName) =>
    some { matchedName := matchedName,
           entities := connectedNamesOf s startId depth.toNat,
           facts := graphFactsOf s
             (matchedName :: connectedNamesOf s startId depth.toNat) }

/-- `createDualBackend.graphTraverse` (src/dual.ts): query both layers; if
both miss return null; if one hits return it unchanged; if both hit,
union entity lists (first occurrence kept) and union fact lists
deduplicated by subject|predicate|object (first seen wins, project before
global), keeping the project layer's matched name. -/
def dualGraphTraverse (project global : DbState) (entityName : String)
    (depth : Int) : Option GraphResult :=
  match graphTraverse project entityName depth,
        graphTraverse global entityName depth with
  | none, none => none
  | none, some r => some r
  | some r, none => some r
  | some rp, some rg =>
    some { matchedName := rp.matchedName,
           entities := dedupKeysGo (fun n => n) [] (rp.entities ++ rg.entities),
           facts := dedupKeysGo graphFactKey [] (rp.facts ++ rg.facts) }

/-- Project layer of the dual-traversal counterexample: a single isolated
entity "billing". -/
def c8Proj : DbState :=
  { entities := [(1, "billing")], nextEntityId := 2,
    entityEmbeddings := [(1, [1])], facts := [], nextFactId := 1,
    factEmbeddings := [], metaDim := some 384 }

/-- Global layer of the dual-traversal counterexample: entities "bill" and
"billing" with one fact between them; the query "bill" resolves to the
shorter name "bill" here but to "billing" in the project layer. -/
def c8Glob : DbState :=
  { entities := [(1, "bill"), (2, "billing")], nextEntityId := 3,
    entityEmbeddings := [(1, [1]), (2, [2])],
    facts := [{ id := 1, subjectId := 2, predicate := "uses", objectId := 1,
                content := "billing uses bill", context := "", source := "",
                scopeCandidate := none }],
    nextFactId := 2, factEmbeddings := [(1, [3])], metaDim := some 384 }

/-- The merged traversal result of the counterexample: the project layer's
matched name appears in the merged connected-entities set. -/
def c8MergedResult : GraphResult :=
  { matchedName := "billing", entities := ["billing"],
    facts := [{ subject := "billing", predicate := "uses", object := "bill",
                fact := "billing uses bill" }] }

/-! ## Promotion workflow (src/promote.ts) -/

/-- A promotion candidate (src/types.ts `CandidateFact`). -/
structure CandidateFact where
  factId : Nat
  subject : String
  predicate : String
  object : String
  content : String
  context : String
  source : String
  scopeCandidate : Scope
deriving DecidableEq, Repr

/-- Modelled from the spec: the v0.5 sqlite backend's `getCandidateFacts`
is not under src/ (only its declaration in src/types.ts and its callers in
src/dual.ts and src/promote.ts are).  Spec §4.4 step 1: read all
project-layer facts whose stored scope tag equals the requested scope,
with subject and object resolved to names. -/
def getCandidateFacts (s : DbState) (scope : Scope) : List CandidateFact :=
  (s.facts.filter (fun f => decide (f.scopeCandidate = some scope))).filterMap
    (fun f =>
      match nameOf s f.subjectId, nameOf s f.objectId with
      | some subj, some obj =>
        some { factId := f.id, subject := subj, predicate := f.predicate,
               object := obj, content := f.content, context := f.context,
               source := f.source, scopeCandidate := scope }
      | _, _ => none)

/-- Modelled from the spec: the v0.5 sqlite backend's `updateFactScope` is
not under src/ (only its declaration and callers are).  Spec §4.4 step 3:
set the candidate tag of the fact with the given id (to `none` when
clearing). -/
def updateFactScope (s : DbState) (factId : Nat) (scope : Option Scope) : DbState :=
  { s with facts := s.facts.map (fun f =>
      if f.id = factId then { f with scopeCandidate := scope } else f) }

/-- The per-candidate loop of `runPromote` (src/promote.ts lines 54-84),
with the embedding provider allowed to fail.  For each selected index:
re-embed subject, object and content (`Promise.all` rejects with the
first failure in argument order for this synchronous embedding);
`findOrCreateEntity` subject and object in the global layer; `storeFact`
into global; clear the candidate tag on the project fact; count it.  The
loop has no per-item error handling: the first failure aborts the
remaining items, keeping all mutations already made.  Invalid indices
cannot occur (the caller filters them) and are skipped. -/
def promoteItems (embedE : String → Except String Emb)
    (candidates : List CandidateFact) :
    List Nat → DbState × DbState × Nat → (DbState × DbState × Nat) × Option String
  | [], st => (st, none)
  | idx :: rest, (proj, glob, promoted) =>
    match candidates.get? idx with
    | none => promoteItems embedE candidates rest (proj, glob, promoted)
    | some c =>
      match embedE c.subject, embedE c.object, embedE c.content with
      | Except.ok subjectEmb, Except.ok objectEmb, Except.ok factEmb =>
        let r1 := findOrCreateEntity glob c.subject subjectEmb
        let r2 := findOrCreateEntity r1.2 c.object objectEmb
        let params : StoreFactParams :=
          { subjectId := r1.1, predicate := c.predicate,
            objectId := r2.1, content := c.content, context := c.context,
            source := c.source, embedding := factEmb }
        match storeFact r2.2 params with
        | Except.ok g3 =>
          promoteItems embedE candidates rest
            (updateFactScope proj c.factId none, g3.2, promoted + 1)
        | Except.error e => ((proj, r2.2, promoted), some e)
      | Except.error e, _, _ => ((proj, glob, promoted), some e)
      | Except.ok _, Except.error e, _ => ((proj, glob, promoted), some e)
      | Except.ok _, Except.ok _, Except.error e => ((proj, glob, promoted), some e)

/-- The promotion loop with an infallible embedding provider, returning
the final project layer, global layer and promoted count. -/
def promoteLoop (embed : String → Emb) (candidates : List CandidateFact)
    (indices : List Nat) (proj glob : DbState) : DbState × DbState × Nat :=
  (promoteItems (fun t => Except.ok (embed t)) candidates indices (proj, glob, 0)).1

/-- The fact row appended to the global layer when one candidate is
promoted (derived form of one `runPromote` iteration). -/
def promotedFactRow (embed : String → Emb) (glob : DbState)
    (c : CandidateFact) : FactRow :=
  let r1 := findOrCreateEntity glob c.subject (embed c.subject)
  let r2 := findOrCreateEntity r1.2 c.object (embed c.object)
  { id := r2.2.nextFactId, subjectId := r1.1, predicate := c.predicate,
    objectId := r2.1, content := c.content, context := c.context,
    source := c.source, scopeCandidate := none }

/-- The effect on the global layer of promoting one candidate with an
infallible embedding provider (derived form of one `runPromote`
iteration): create/refresh the subject and object entities, then append
the new fact row and its freshly derived embedding. -/
def promoteGlobalStep (embed : String → Emb) (glob : DbState)
    (c : CandidateFact) : DbState :=
  let r1 := findOrCreateEntity glob c.subject (embed c.subject)
  let r2 := findOrCreateEntity r1.2 c.object (embed c.object)
  let p : StoreFactParams :=
    { subjectId := r1.1, predicate := c.predicate, objectId := r2.1,
      content := c.content, context := c.context, source := c.source,
      embedding := embed c.content }
  { r2.2 with
    facts := r2.2.facts ++ [mkFactRow r2.2 p],
    nextFactId := r2.2.nextFactId + 1,
    factEmbeddings := r2.2.factEmbeddings ++ [(r2.2.nextFactId, p.embedding)] }

/-- A concrete promotion candidate used to instantiate theorems. -/
def demoCandidate : CandidateFact :=
  { factId := 1, subject := "api", predicate := "uses", object := "redis",
    content := "api uses redis", context := "", source := "",
    scopeCandidate := Scope.global }

/-- First candidate of the batch-failure scenario. -/
def c4CandA : CandidateFact :=
  { factId := 1, subject := "svc-a", predicate := "uses", object := "pg",
    content := "svc-a uses pg", context := "", source := "",
    scopeCandidate := Scope.global }

/-- Second candidate of the batch-failure scenario; embedding its subject
fails. -/
def c4CandB : CandidateFact :=
  { factId := 2, subject := "svc-b", predicate := "uses", object := "redis",
    content := "svc-b uses redis", context := "", source := "",
    scopeCandidate := Scope.global }

/-- Third candidate of the batch-failure scenario; embedding it would
succeed. -/
def c4CandC : CandidateFact :=
  { factId := 3, subject := "svc-c", predicate := "uses", object := "kafka",
    content := "svc-c uses kafka", context := "", source := "",
    scopeCandidate := Scope.global }

/-- An embedding provider that fails exactly on the text "svc-b". -/
def c4Embed : String → Except String Emb := fun t =>
  if t = "svc-b" then Except.error "embed failed" else Except.ok [1]

/-- Store well-formedness maintained by the schema: unique entity ids,
`AUTOINCREMENT` counters above every existing row id. -/
def Wf (s : DbState) : Prop :=
  (s.entities.map (fun e => e.1)).Nodup ∧
  (∀ e ∈ s.entities, e.1 < s.nextEntityId) ∧
  (∀ p ∈ s.factEmbeddings, p.1 < s.nextFactId) ∧
  (∀ f ∈ s.facts, f.id < s.nextFactId)

/-- All the given fact ids are below the store's fact counter (used to
express that a fact is new relative to a snapshot). -/
def OldIdsBelow (oldIds : List Nat) (s : DbState) : Prop :=
  ∀ id ∈ oldIds, id < s.nextFactId

/-- Spec §4.4 promotion effect on the global layer: it contains a new
fact (id not among the given snapshot ids) with the candidate's subject,
predicate, object and content, whose stored embedding is the freshly
derived embedding of the content. -/
def GlobalHasFact (embed : String → Emb) (c : CandidateFact)
    (oldIds : List Nat) (s : DbState) : Prop :=
  ∃ gf : FactRow, gf ∈ s.facts ∧ gf.id ∉ oldIds ∧
    nameOf s gf.subjectId = some c.subject ∧
    gf.predicate = c.predicate ∧
    nameOf s gf.objectId = some c.object ∧
    gf.content = c.content ∧
    lookupEmb s.factEmbeddings gf.id = some (embed c.content)

/-- The project layer holds a fact with the candidate's id whose
non-scope columns match `f0`. -/
def HasFactLike (c : CandidateFact) (f0 : FactRow) (s : DbState) : Prop :=
  ∃ f1 : FactRow, f1 ∈ s.facts ∧ f1.id = c.factId ∧
    f1.subjectId = f0.subjectId ∧ f1.predicate = f0.predicate ∧
    f1.objectId = f0.objectId ∧ f1.content = f0.content

/-- Spec §4.4 promotion effect on the project layer: the original fact
still exists (same id and non-scope columns as `f0`) with its candidate
tag cleared, and no fact with that id carries a candidate tag any more. -/
def ProjectCleared (c : CandidateFact) (f0 : FactRow) (s : DbState) : Prop :=
  (∃ f1 : FactRow, f1 ∈ s.facts ∧ f1.id = c.factId ∧
    f1.scopeCandidate = none ∧ f1.subjectId = f0.subjectId ∧
    f1.predicate = f0.predicate ∧ f1.objectId = f0.objectId ∧
    f1.content = f0.content) ∧
  (∀ f ∈ s.facts, f.id = c.factId → f.scopeCandidate = none)

/-- The project fact behind `demoCandidate`, tagged as a global
candidate. -/
def c2Fact : FactRow :=
  { id := 1, subjectId := 1, predicate := "uses", objectId := 2,
    content := "api uses redis", context := "", source := "",
    scopeCandidate := some Scope.global }

/-- A concrete project layer holding `c2Fact`. -/
def c2Proj : DbState :=
  { entities := [(1, "api"), (2, "redis")], nextEntityId := 3,
    entityEmbeddings := [(1, [1]), (2, [2])], facts := [c2Fact],
    nextFactId := 2, factEmbeddings := [(1, [5])], metaDim := some 384 }

/-! ## Operator selection parsing (src/promote.ts lines 44-46) -/

/-- Value of a maximal leading digit run, or `none` when there is none
(JS `parseInt` returning `NaN`). -/
def digitsVal (l : List Char) : Option Nat :=
  let ds := l.takeWhile Char.isDigit
  if ds.isEmpty then none
  else some (ds.foldl (fun acc c => acc * 10 + (c.toNat - 48)) 0)

/-- JS `parseInt(s, 10)` on an already-trimmed string: optional sign, then
a maximal digit run; `NaN` (here `none`) when no digits follow. -/
def jsParseInt (s : String) : Option Int :=
  match s.data with
  | '-' :: rest => (digitsVal rest).map (fun n => -(n : Int))
  | '+' :: rest => (digitsVal rest).map (fun n => (n : Int))
  | l => (digitsVal l).map (fun n => (n : Int))

/-- JS `String.prototype.split(",")`. -/
def splitOnComma (l : List Char) : List (List Char) :=
  match l with
  | [] => [[]]
  | c :: rest =>
    let r := splitOnComma rest
    if c = ',' then [] :: r
    else
      match r with
      | [] => [[c]]
      | h :: t => (c :: h) :: t

/-- The numeric-selection parse of `runPromote`:
`answer.split(",").map(s => parseInt(s.trim(), 10) - 1)
.filter(n => !isNaN(n) && n >= 0 && n < candidates.length)`.
No deduplication is applied. -/
def parseSelection (answer : String) (numCandidates : Nat) : List Nat :=
  ((((splitOnComma answer.data).filterMap
        (fun part => jsParseInt (String.mk (trimChars part)))).map
      (fun n => n - 1)).filter
    (fun n => decide (0 ≤ n ∧ n < (numCandidates : Int)))).map Int.toNat

/-- A small concrete store used to instantiate theorems with hypotheses:
two entities and one fact between them. -/
def demoStore : DbState :=
  { entities := [(1, "billing"), (2, "postgres")],
    nextEntityId := 3,
    entityEmbeddings := [(1, [1]), (2, [2])],
    facts := [{ id := 1, subjectId := 1, predicate := "uses", objectId := 2,
                content := "billing uses postgres", context := "", source := "",
                scopeCandidate := none }],
    nextFactId := 2, factEmbeddings := [(1, [3])], metaDim := some 384 }

/-! ## Theorems -/

/-- String append is associative (helper). -/
theorem string_append_assoc (a b c : String) : a ++ b ++ c = a ++ (b ++ c) :=
  String.ext (by simp [String.data_append, List.append_assoc])

/-- The two classifier predicate sets are disjoint (helper). -/
theorem predicate_sets_disjoint :
    ∀ n : String, n ∈ PROJECT_PREDICATES → n ∉ GLOBAL_PREDICATES := by
  intro n hn
  simp only [PROJECT_PREDICATES, List.mem_cons, List.not_mem_nil, or_false] at hn
  rcases hn with rfl | rfl | rfl | rfl | rfl | rfl | rfl | rfl | rfl <;> decide

/-- C6: `classifyScope` is a pure total function normalizing its argument by
lower-casing and trimming, mapping the fixed global set to `global`, the
fixed project set to `project`, and everything else to `project`; in
particular `classifyScope "uses" = global`, `classifyScope "todo" =
project`, `classifyScope "some_unknown_verb" = project`. -/
theorem c6_classifier_spec :
    (∀ p : String,
      (jsNormalize p ∈ GLOBAL_PREDICATES → classifyScope p = Scope.global) ∧
      (jsNormalize p ∈ PROJECT_PREDICATES → classifyScope p = Scope.project) ∧
      (jsNormalize p ∉ GLOBAL_PREDICATES → jsNormalize p ∉ PROJECT_PREDICATES →
        classifyScope p = Scope.project)) ∧
    classifyScope "uses" = Scope.global ∧
    classifyScope "todo" = Scope.project ∧
    classifyScope "some_unknown_verb" = Scope.project := by
  refine ⟨fun p => ⟨fun hg => ?_, fun hp => ?_, fun hg hp => ?_⟩, by decide, by decide, by decide⟩
  · unfold classifyScope
    rw [if_pos hg]
  · have hng := predicate_sets_disjoint _ hp
    unfold classifyScope
    rw [if_neg hng, if_pos hp]
  · unfold classifyScope
    rw [if_neg hg, if_neg hp]

/-- Witness for C6 at concrete inputs. -/
theorem c6_classifier_spec_witness :
    classifyScope "Depends_On " = Scope.global ∧
    classifyScope "blocked_by" = Scope.project ∧
    classifyScope "mystery_verb" = Scope.project :=
  ⟨(c6_classifier_spec.1 "Depends_On ").1 (by decide),
   (c6_classifier_spec.1 "blocked_by").2.1 (by decide),
   (c6_classifier_spec.1 "mystery_verb").2.2 (by decide) (by decide)⟩

/-- The seen-set dedup loop equals the spec's keep-first-occurrence dedup
on the elements whose keys are not yet seen (helper). -/
theorem dedupKeysGo_eq_dedupFirstOcc {α : Type} (key : α → String) :
    ∀ (l : List α) (seen : List String),
      dedupKeysGo key seen l =
        dedupFirstOcc key (l.filter (fun x => decide (key x ∉ seen))) := by
  intro l
  induction l with
  | nil => intro seen; simp [dedupKeysGo, dedupFirstOcc]
  | cons r rest ih =>
    intro seen
    by_cases hmem : key r ∈ seen
    · rw [show dedupKeysGo key seen (r :: rest) = dedupKeysGo key seen rest by
        simp [dedupKeysGo, hmem]]
      rw [show (r :: rest).filter (fun x => decide (key x ∉ seen)) =
          rest.filter (fun x => decide (key x ∉ seen)) by
        simp [List.filter_cons, hmem]]
      exact ih seen
    · rw [show dedupKeysGo key seen (r :: rest) =
          r :: dedupKeysGo key (key r :: seen) rest by
        simp [dedupKeysGo, hmem]]
      rw [show (r :: rest).filter (fun x => decide (key x ∉ seen)) =
          r :: rest.filter (fun x => decide (key x ∉ seen)) by
        simp [List.filter_cons, hmem]]
      rw [dedupFirstOcc]
      rw [List.filter_filter]
      rw [ih (key r :: seen)]
      congr 1
      apply congrArg
      apply List.filter_congr
      intro x _
      by_cases hx : key x = key r <;> by_cases hs : key x ∈ seen <;>
        simp [hx, hs, List.mem_cons]

/-- Elements of the spec dedup come from the original list (helper). -/
theorem mem_of_mem_dedupFirstOcc {α : Type} (key : α → String) :
    ∀ (n : Nat) (l : List α), l.length ≤ n →
      ∀ x ∈ dedupFirstOcc key l, x ∈ l := by
  intro n
  induction n with
  | zero =>
    intro l hl x hx
    rw [List.length_eq_zero.mp (Nat.le_zero.mp hl)] at hx
    simp [dedupFirstOcc] at hx
  | succ n ih =>
    intro l hl x hx
    cases l with
    | nil => simp [dedupFirstOcc] at hx
    | cons r rest =>
      rw [dedupFirstOcc] at hx
      rcases List.mem_cons.mp hx with rfl | hx'
      · exact List.mem_cons_self _ _
      · have hlen : (rest.filter (fun y => decide (key y ≠ key r))).length ≤ n :=
          le_trans (List.length_filter_le _ _)
            (Nat.le_of_succ_le_succ (le_trans hl (le_refl _)))
        have := ih _ hlen x hx'
        exact List.mem_cons_of_mem _ (List.mem_filter.mp this).1

/-- Filtering the spec dedup by one key keeps exactly the first occurrence
of that key in the input (helper). -/
theorem filter_dedupFirstOcc {α : Type} (key : α → String) (k : String) :
    ∀ (n : Nat) (l : List α), l.length ≤ n →
      (dedupFirstOcc key l).filter (fun r => decide (key r = k)) =
        (l.filter (fun r => decide (key r = k))).take 1 := by
  intro n
  induction n with
  | zero =>
    intro l hl
    rw [List.length_eq_zero.mp (Nat.le_zero.mp hl)]
    simp [dedupFirstOcc]
  | succ n ih =>
    intro l hl
    cases l with
    | nil => simp [dedupFirstOcc]
    | cons r rest =>
      have hrest : rest.length ≤ n := Nat.le_of_succ_le_succ hl
      rw [dedupFirstOcc]
      by_cases hk : key r = k
      · rw [show (r :: rest).filter (fun x => decide (key x = k)) =
            r :: rest.filter (fun x => decide (key x = k)) by
          simp [List.filter_cons, hk]]
        rw [show ((r :: rest.filter (fun x => decide (key x = k)))).take 1 = [r] by
          simp]
        rw [show (r :: dedupFirstOcc key
              (rest.filter (fun x => decide (key x ≠ key r)))).filter
              (fun x => decide (key x = k)) =
            r :: (dedupFirstOcc key
              (rest.filter (fun x => decide (key x ≠ key r)))).filter
              (fun x => decide (key x = k)) by
          simp [List.filter_cons, hk]]
        have hnil : (dedupFirstOcc key
            (rest.filter (fun x => decide (key x ≠ key r)))).filter
            (fun x => decide (key x = k)) = [] := by
          rw [List.filter_eq_nil_iff]
          intro x hx
          have hxmem := mem_of_mem_dedupFirstOcc key n _
            (le_trans (List.length_filter_le _ _) hrest) x hx
          have hne := (List.mem_filter.mp hxmem).2
          simp only [decide_eq_true_eq] at hne ⊢
          rw [hk] at hne
          exact hne
        rw [hnil]
      · rw [show (r :: rest).filter (fun x => decide (key x = k)) =
            rest.filter (fun x => decide (key x = k)) by
          simp [List.filter_cons, hk]]
        rw [show (r :: dedupFirstOcc key
              (rest.filter (fun x => decide (key x ≠ key r)))).filter
              (fun x => decide (key x = k)) =
            (dedupFirstOcc key
              (rest.filter (fun x => decide (key x ≠ key r)))).filter
              (fun x => decide (key x = k)) by
          simp [List.filter_cons, hk]]
        rw [ih _ (le_trans (List.length_filter_le _ _) hrest)]
        rw [List.filter_filter]
        congr 1
        apply List.filter_congr
        intro x _
        by_cases hx : key x = k
        · have h1 : key x ≠ key r := by rw [hx]; exact fun h => hk h.symm
          have h2 : ¬k = key r := fun h => hk h.symm
          simp [hx, h1, h2]
        · simp [hx]

/-- The seen-set dedup loop starting from an empty seen set is the spec's
keep-first-occurrence dedup (helper). -/
theorem dedupKeysGo_nil_eq {α : Type} (key : α → String) (l : List α) :
    dedupKeysGo key [] l = dedupFirstOcc key l := by
  rw [dedupKeysGo_eq_dedupFirstOcc]
  congr 1
  simp

/-- C1: merged `searchFacts` on the dual backend equals, for every pair of
layer results and limit, the concatenation of project and global results
(tagged with their origin) sorted by score descending, deduplicated by
(subject, predicate, object) keeping the first occurrence after the sort,
truncated to `limit`; the output never exceeds `limit` entries; and for
every triple key present in either layer the pre-truncation merge keeps
exactly one occurrence of that key, carrying the maximal score over all
occurrences in both layers. -/
theorem c1_merged_search_facts :
    (∀ pr gl limit, mergedSearchFacts pr gl limit =
      (dedupFirstOcc searchKey
        (List.insertionSort scoreGE (taggedAll pr gl))).take limit) ∧
    (∀ pr gl limit, (mergedSearchFacts pr gl limit).length ≤ limit) ∧
    (∀ pr gl (k : String),
      (taggedAll pr gl).filter (fun r => decide (searchKey r = k)) ≠ [] →
      ∃ e, (mergedPre pr gl).filter (fun r => decide (searchKey r = k)) = [e] ∧
        e ∈ taggedAll pr gl ∧ searchKey e = k ∧
        ∀ r ∈ taggedAll pr gl, searchKey r = k → r.score ≤ e.score) := by
  refine ⟨?_, ?_, ?_⟩
  · intro pr gl limit
    rw [mergedSearchFacts, mergedPre, dedupKeysGo_nil_eq]
  · intro pr gl limit
    rw [mergedSearchFacts]
    exact le_trans (Nat.le_of_eq (List.length_take _ _)) (min_le_left _ _)
  · intro pr gl k hne
    have hperm : (List.insertionSort scoreGE (taggedAll pr gl)).Perm (taggedAll pr gl) :=
      List.perm_insertionSort _ _
    have hFperm := hperm.filter (fun r => decide (searchKey r = k))
    have hFne : (List.insertionSort scoreGE (taggedAll pr gl)).filter
        (fun r => decide (searchKey r = k)) ≠ [] := by
      intro h
      rw [h] at hFperm
      exact hne (List.Perm.eq_nil hFperm.symm)
    obtain ⟨e, F', hF⟩ : ∃ e F',
        (List.insertionSort scoreGE (taggedAll pr gl)).filter
          (fun r => decide (searchKey r = k)) = e :: F' := by
      cases hcase : (List.insertionSort scoreGE (taggedAll pr gl)).filter
          (fun r => decide (searchKey r = k)) with
      | nil => exact absurd hcase hFne
      | cons a b => exact ⟨a, b, rfl⟩
    have h1 : (mergedPre pr gl).filter (fun r => decide (searchKey r = k)) = [e] := by
      rw [mergedPre, dedupKeysGo_nil_eq,
        filter_dedupFirstOcc searchKey k
          (List.insertionSort scoreGE (taggedAll pr gl)).length _ (le_refl _),
        hF]
      rfl
    have heF : e ∈ (List.insertionSort scoreGE (taggedAll pr gl)).filter
        (fun r => decide (searchKey r = k)) := by
      rw [hF]; exact List.mem_cons_self _ _
    have heSorted := (List.mem_filter.mp heF).1
    have heK : searchKey e = k := by
      have := (List.mem_filter.mp heF).2
      simpa using this
    refine ⟨e, h1, hperm.mem_iff.mp heSorted, heK, ?_⟩
    intro r hr hkr
    have hrF : r ∈ (taggedAll pr gl).filter (fun x => decide (searchKey x = k)) :=
      List.mem_filter.mpr ⟨hr, by simpa using hkr⟩
    have hrF' : r ∈ e :: F' := by
      rw [← hF]
      exact hFperm.mem_iff.mpr hrF
    rcases List.mem_cons.mp hrF' with rfl | hmem
    · exact le_refl _
    · have hsorted : List.Sorted scoreGE
          (List.insertionSort scoreGE (taggedAll pr gl)) :=
        List.sorted_insertionSort scoreGE _
      have hsortedF : List.Sorted scoreGE
          ((List.insertionSort scoreGE (taggedAll pr gl)).filter
            (fun x => decide (searchKey x = k))) :=
        List.Pairwise.filter _ hsorted
      rw [hF] at hsortedF
      exact List.rel_of_sorted_cons hsortedF r hmem

/-- Witness for C1: a triple present in both layers with different scores
survives the merge exactly once, with the higher (global-layer) score. -/
theorem c1_merged_search_facts_witness :
    ((taggedAll
        [{ subject := "X", predicate := "uses", object := "Y", fact := "f",
           context := "", source := "", score := 5 }]
        [{ subject := "X", predicate := "uses", object := "Y", fact := "g",
           context := "", source := "", score := 9 }]).filter
      (fun r => decide (searchKey r = "X|uses|Y")) ≠ []) ∧
    (∃ e, (mergedPre
        [{ subject := "X", predicate := "uses", object := "Y", fact := "f",
           context := "", source := "", score := 5 }]
        [{ subject := "X", predicate := "uses", object := "Y", fact := "g",
           context := "", source := "", score := 9 }]).filter
      (fun r => decide (searchKey r = "X|uses|Y")) = [e] ∧
      e ∈ taggedAll
        [{ subject := "X", predicate := "uses", object := "Y", fact := "f",
           context := "", source := "", score := 5 }]
        [{ subject := "X", predicate := "uses", object := "Y", fact := "g",
           context := "", source := "", score := 9 }] ∧
      searchKey e = "X|uses|Y" ∧
      ∀ r ∈ taggedAll
        [{ subject := "X", predicate := "uses", object := "Y", fact := "f",
           context := "", source := "", score := 5 }]
        [{ subject := "X", predicate := "uses", object := "Y", fact := "g",
           context := "", source := "", score := 9 }],
        searchKey r = "X|uses|Y" → r.score ≤ e.score) :=
  ⟨by decide,
   c1_merged_search_facts.2.2
     [{ subject := "X", predicate := "uses", object := "Y", fact := "f",
        context := "", source := "", score := 5 }]
     [{ subject := "X", predicate := "uses", object := "Y", fact := "g",
        context := "", source := "", score := 9 }]
     "X|uses|Y" (by decide)⟩

/-- C3 counterexample: when both underlying closes fail with distinct
errors, the dual backend's close propagates only the project layer's
error; the global layer's error is dropped, not aggregated. -/
theorem c3_close_counterexample :
    dualClose (Except.error "project close failed")
        (Except.error "global close failed") =
      Except.error "project close failed" ∧
    (∀ msg, dualClose (Except.error "project close failed")
        (Except.error "global close failed") = Except.error msg →
      msg = "project close failed") := by
  refine ⟨rfl, ?_⟩
  intro msg h
  have : Except.error (ε := String) (α := Unit) "project close failed" =
      Except.error msg := h
  cases this
  rfl

/-- C3 (amended): `close` awaits both underlying closes (both are always
invoked); it succeeds exactly when both succeed and fails if either
fails, but it propagates a single error — the project layer's when that
close fails, otherwise the global layer's — instead of an aggregate of
both. -/
theorem c3_close_amended :
    (∀ p g : Except String Unit,
      dualClose p g = Except.ok () ↔ (p = Except.ok () ∧ g = Except.ok ())) ∧
    (∀ (g : Except String Unit) (e : String),
      dualClose (Except.error e) g = Except.error e) ∧
    (∀ e : String,
      dualClose (Except.ok ()) (Except.error e) = Except.error e) := by
  refine ⟨?_, ?_, ?_⟩
  · intro p g
    cases p with
    | error e => simp [dualClose, promiseAll2, Except.map]
    | ok u =>
      cases g with
      | error e => simp [dualClose, promiseAll2, Except.map]
      | ok v => cases u; cases v; simp [dualClose, promiseAll2, Except.map]
  · intro g e
    cases g <;> rfl
  · intro e
    rfl

/-- Witness for C3 (amended) at concrete outcomes. -/
theorem c3_close_amended_witness :
    dualClose (Except.ok ()) (Except.ok ()) = Except.ok () ∧
    dualClose (Except.error "boom") (Except.ok ()) = Except.error "boom" ∧
    dualClose (Except.ok ()) (Except.error "fizz") = Except.error "fizz" :=
  ⟨(c3_close_amended.1 (Except.ok ()) (Except.ok ())).mpr ⟨rfl, rfl⟩,
   c3_close_amended.2.1 (Except.ok ()) "boom",
   c3_close_amended.2.2 "fizz"⟩

/-- `find?` looks in the left part of an append first (helper). -/
theorem find?_append_some {α : Type} {p : α → Bool} {l₁ : List α} (l₂ : List α)
    {a : α} (h : l₁.find? p = some a) : (l₁ ++ l₂).find? p = some a := by
  induction l₁ with
  | nil => simp [List.find?] at h
  | cons x rest ih =>
    rw [List.cons_append]
    cases hx : p x with
    | true =>
      rw [List.find?_cons_of_pos _ hx]
      rw [List.find?_cons_of_pos _ hx] at h
      exact h
    | false =>
      rw [List.find?_cons_of_neg _ (by simp [hx])]
      rw [List.find?_cons_of_neg _ (by simp [hx])] at h
      exact ih h

/-- `find?` skips an all-failing left part of an append (helper). -/
theorem find?_append_none {α : Type} {p : α → Bool} :
    ∀ {l₁ : List α}, l₁.find? p = none → ∀ l₂ : List α,
      (l₁ ++ l₂).find? p = l₂.find? p := by
  intro l₁
  induction l₁ with
  | nil => intro _ l₂; rfl
  | cons x rest ih =>
    intro h l₂
    rw [List.find?_eq_none] at h
    rw [List.cons_append, List.find?_cons_of_neg _ (h x (List.mem_cons_self _ _))]
    exact ih (List.find?_eq_none.mpr (fun y hy => h y (List.mem_cons_of_mem _ hy))) l₂

/-- The entities table after `findOrCreateEntity` (helper). -/
theorem foce_entities (s : DbState) (n : String) (e : Emb) :
    (findOrCreateEntity s n e).2.entities =
      if s.entities.any (fun x => decide (x.2 = n)) then s.entities
      else s.entities ++ [(s.nextEntityId, n)] := by
  by_cases h : s.entities.any (fun x => decide (x.2 = n)) <;>
    simp [findOrCreateEntity, h]

/-- `findOrCreateEntity` leaves the facts table unchanged (helper). -/
theorem foce_facts (s : DbState) (n : String) (e : Emb) :
    (findOrCreateEntity s n e).2.facts = s.facts := by
  by_cases h : s.entities.any (fun x => decide (x.2 = n)) <;>
    simp [findOrCreateEntity, h]

/-- `findOrCreateEntity` leaves the fact embeddings unchanged (helper). -/
theorem foce_factEmbeddings (s : DbState) (n : String) (e : Emb) :
    (findOrCreateEntity s n e).2.factEmbeddings = s.factEmbeddings := by
  by_cases h : s.entities.any (fun x => decide (x.2 = n)) <;>
    simp [findOrCreateEntity, h]

/-- The entity embeddings after `findOrCreateEntity`: the returned id's
row is deleted then re-inserted with the new vector (helper). -/
theorem foce_entityEmbeddings (s : DbState) (n : String) (e : Emb) :
    (findOrCreateEntity s n e).2.entityEmbeddings =
      s.entityEmbeddings.filter (fun p => decide (p.1 ≠ (findOrCreateEntity s n e).1)) ++
        [((findOrCreateEntity s n e).1, e)] := by
  by_cases h : s.entities.any (fun x => decide (x.2 = n)) <;>
    simp [findOrCreateEntity, h]

/-- After `findOrCreateEntity`, looking the name up finds the returned id
(helper). -/
theorem foce_find (s : DbState) (n : String) (e : Emb) :
    (findOrCreateEntity s n e).2.entities.find? (fun x => decide (x.2 = n)) =
      some ((findOrCreateEntity s n e).1, n) := by
  by_cases h : s.entities.any (fun x => decide (x.2 = n))
  · cases hfind : s.entities.find? (fun x => decide (x.2 = n)) with
    | none =>
      exfalso
      rw [List.find?_eq_none] at hfind
      obtain ⟨x, hx, hpx⟩ := List.any_eq_true.mp h
      exact hfind x hx hpx
    | some entry =>
      have h2 : entry.2 = n := by simpa using List.find?_some hfind
      simp only [findOrCreateEntity, if_pos h, hfind]
      have hred : (Option.map (fun e => e.1) (some entry)).getD 0 = entry.1 := rfl
      rw [hred, ← h2]
  · have hnone : s.entities.find? (fun x => decide (x.2 = n)) = none := by
      rw [List.find?_eq_none]
      intro x hx hpx
      exact h (List.any_eq_true.mpr ⟨x, hx, hpx⟩)
    simp only [findOrCreateEntity, if_neg h]
    rw [find?_append_none hnone]
    simp [List.find?]

/-- The pair (returned id, name) is an entity row after the call (helper). -/
theorem foce_id_mem (s : DbState) (n : String) (e : Emb) :
    ((findOrCreateEntity s n e).1, n) ∈ (findOrCreateEntity s n e).2.entities :=
  List.mem_of_find?_eq_some (foce_find s n e)

/-- The returned id is the first row whose name matches (helper). -/
theorem foce_id (s : DbState) (n : String) (e : Emb) (entry : Nat × String)
    (hfind : s.entities.find? (fun x => decide (x.2 = n)) = some entry) :
    (findOrCreateEntity s n e).1 = entry.1 := by
  have hany : s.entities.any (fun x => decide (x.2 = n)) = true := by
    by_contra hcon
    have hnone : s.entities.find? (fun x => decide (x.2 = n)) = none := by
      rw [List.find?_eq_none]
      intro x hx hpx
      exact hcon (List.any_eq_true.mpr ⟨x, hx, hpx⟩)
    rw [hnone] at hfind
    exact Option.noConfusion hfind
  simp [findOrCreateEntity, hany, hfind]

/-- Deleting a rowid then inserting it maps the lookup to the new vector
(helper). -/
theorem lookupEmb_upsert (m : List (Nat × Emb)) (id : Nat) (e : Emb) :
    lookupEmb (m.filter (fun p => decide (p.1 ≠ id)) ++ [(id, e)]) id = some e := by
  have hnone : (m.filter (fun p => decide (p.1 ≠ id))).find?
      (fun p => decide (p.1 = id)) = none := by
    rw [List.find?_eq_none]
    intro x hx
    have hne := (List.mem_filter.mp hx).2
    simp only [decide_eq_true_eq] at hne ⊢
    exact hne
  rw [lookupEmb, find?_append_none hnone]
  simp [List.find?]

/-- C7: calling `findOrCreateEntity` twice with the same name returns the
same id both times (no error is possible — the operation is total in this
model), and the stored entity embedding afterwards is the second vector:
the latest supplied embedding replaces the previous one. -/
theorem c7_find_or_create_entity_idempotent :
    ∀ (s : DbState) (n : String) (e1 e2 : Emb),
      (findOrCreateEntity (findOrCreateEntity s n e1).2 n e2).1 =
        (findOrCreateEntity s n e1).1 ∧
      lookupEmb
        (findOrCreateEntity (findOrCreateEntity s n e1).2 n e2).2.entityEmbeddings
        (findOrCreateEntity s n e1).1 = some e2 := by
  intro s n e1 e2
  have hid : (findOrCreateEntity (findOrCreateEntity s n e1).2 n e2).1 =
      (findOrCreateEntity s n e1).1 :=
    foce_id (findOrCreateEntity s n e1).2 n e2
      ((findOrCreateEntity s n e1).1, n) (foce_find s n e1)
  refine ⟨hid, ?_⟩
  rw [foce_entityEmbeddings, hid]
  exact lookupEmb_upsert _ _ _

/-- C9: the core accepts out-of-range depths: when the fuzzy lookup
matches and the depth is 0 or negative, `graphTraverse` still returns a
result (not null) whose connected-entities list is empty and whose facts
are exactly the facts touching the matched entity. -/
theorem c9_depth_nonpositive :
    ∀ (s : DbState) (q : String) (depth : Int) (startId : Nat) (mname : String),
      depth ≤ 0 →
      fuzzyFindEntity s q = some (startId, mname) →
      graphTraverse s q depth =
        some { matchedName := mname, entities := [],
               facts := (s.facts.filterMap (factToRow s)).filter
                 (fun r => decide (r.subject = mname) || decide (r.object = mname)) } := by
  intro s q depth startId mname hd hf
  simp only [graphTraverse, hf, Int.toNat_of_nonpos hd]
  have hconn : connectedNamesOf s startId 0 = [] := by
    simp [connectedNamesOf, cteLevels, dedupKeysGo]
  rw [hconn]
  simp only [graphFactsOf]
  congr 2
  apply List.filter_congr
  intro r _
  simp

/-- Witness for C9: on the demo store with depth -2, traversal from the
fuzzy query "bill" returns the matched entity with no connected entities
and its incident fact. -/
theorem c9_depth_nonpositive_witness :
    ((-2 : Int) ≤ 0) ∧
    fuzzyFindEntity demoStore "bill" = some (1, "billing") ∧
    graphTraverse demoStore "bill" (-2) =
      some { matchedName := "billing", entities := [],
             facts := (demoStore.facts.filterMap (factToRow demoStore)).filter
               (fun r => decide (r.subject = "billing") ||
                 decide (r.object = "billing")) } :=
  ⟨by decide, by decide,
   c9_depth_nonpositive demoStore "bill" (-2) 1 "billing" (by decide) (by decide)⟩

/-- Entity membership from a pair with the given id implies the `any`
check of the foreign-key validation succeeds (helper). -/
theorem any_id_of_mem {s : List (Nat × String)} {id : Nat} {nm : String}
    (h : (id, nm) ∈ s) : s.any (fun e => decide (e.1 = id)) = true :=
  List.any_eq_true.mpr ⟨(id, nm), h, by simp⟩

/-- `findOrCreateEntity` never removes entity rows (helper). -/
theorem foce_entities_mono (s : DbState) (n : String) (e : Emb) :
    ∀ x ∈ s.entities, x ∈ (findOrCreateEntity s n e).2.entities := by
  intro x hx
  rw [foce_entities]
  by_cases h : s.entities.any (fun y => decide (y.2 = n)) <;> simp [h, hx]

/-- `storeFact` succeeds when both referenced entities exist, appending
the fact row and its embedding (helper). -/
theorem storeFact_ok (s : DbState) (p : StoreFactParams)
    (hs : s.entities.any (fun e => decide (e.1 = p.subjectId)) = true)
    (ho : s.entities.any (fun e => decide (e.1 = p.objectId)) = true) :
    storeFact s p = Except.ok (s.nextFactId,
      { s with
        facts := s.facts ++ [mkFactRow s p],
        nextFactId := s.nextFactId + 1,
        factEmbeddings := s.factEmbeddings ++ [(s.nextFactId, p.embedding)] }) := by
  rw [storeFact, if_pos (by rw [hs, ho]; rfl)]

/-- One iteration of the promotion loop with an infallible embedding
provider and a valid index: clear the project tag, apply the global-layer
step, count one promotion (helper). -/
theorem promoteItems_cons_found (embed : String → Emb)
    (cands : List CandidateFact) (idx : Nat) (rest : List Nat)
    (proj glob : DbState) (cnt : Nat) (c : CandidateFact)
    (hc : cands.get? idx = some c) :
    promoteItems (fun t => Except.ok (embed t)) cands (idx :: rest)
        (proj, glob, cnt) =
      promoteItems (fun t => Except.ok (embed t)) cands rest
        (updateFactScope proj c.factId none, promoteGlobalStep embed glob c,
         cnt + 1) := by
  have hsubj : ((findOrCreateEntity glob c.subject (embed c.subject)).1, c.subject) ∈
      (findOrCreateEntity (findOrCreateEntity glob c.subject (embed c.subject)).2
        c.object (embed c.object)).2.entities :=
    foce_entities_mono _ _ _ _ (foce_id_mem glob c.subject (embed c.subject))
  have hobj := foce_id_mem (findOrCreateEntity glob c.subject (embed c.subject)).2
    c.object (embed c.object)
  have hsf := storeFact_ok
    (findOrCreateEntity (findOrCreateEntity glob c.subject (embed c.subject)).2
      c.object (embed c.object)).2
    { subjectId := (findOrCreateEntity glob c.subject (embed c.subject)).1,
      predicate := c.predicate,
      objectId := (findOrCreateEntity (findOrCreateEntity glob c.subject
        (embed c.subject)).2 c.object (embed c.object)).1,
      content := c.content, context := c.context, source := c.source,
      embedding := embed c.content }
    (any_id_of_mem hsubj) (any_id_of_mem hobj)
  simp only [promoteItems, hc, hsf, promoteGlobalStep, mkFactRow]

/-- The facts table after one promotion step (helper). -/
theorem promoteGlobalStep_facts (embed : String → Emb) (glob : DbState)
    (c : CandidateFact) :
    (promoteGlobalStep embed glob c).facts =
      glob.facts ++ [promotedFactRow embed glob c] := by
  simp only [promoteGlobalStep, promotedFactRow, mkFactRow]
  rw [foce_facts, foce_facts]

/-- The fact embeddings after one promotion step (helper). -/
theorem promoteGlobalStep_factEmbeddings (embed : String → Emb)
    (glob : DbState) (c : CandidateFact) :
    (promoteGlobalStep embed glob c).factEmbeddings =
      glob.factEmbeddings ++
        [((promotedFactRow embed glob c).id, embed c.content)] := by
  simp only [promoteGlobalStep, promotedFactRow]
  rw [foce_factEmbeddings, foce_factEmbeddings]

/-- The promoted fact row copies the candidate's content and predicate
(helper). -/
theorem promotedFactRow_fields (embed : String → Emb) (glob : DbState)
    (c : CandidateFact) :
    (promotedFactRow embed glob c).content = c.content ∧
    (promotedFactRow embed glob c).predicate = c.predicate := ⟨rfl, rfl⟩

/-- Promoting the same valid candidate index `k` times appends `k` fact
rows to the global layer and counts `k` promotions (helper). -/
theorem promoteItems_replicate (embed : String → Emb)
    (cands : List CandidateFact) (i : Nat) (c : CandidateFact)
    (hc : cands.get? i = some c) :
    ∀ (k : Nat) (proj glob : DbState) (cnt : Nat),
      ((promoteItems (fun t => Except.ok (embed t)) cands (List.replicate k i)
          (proj, glob, cnt)).1.2.1.facts.length = glob.facts.length + k) ∧
      ((promoteItems (fun t => Except.ok (embed t)) cands (List.replicate k i)
          (proj, glob, cnt)).1.2.2 = cnt + k) ∧
      ((promoteItems (fun t => Except.ok (embed t)) cands (List.replicate k i)
          (proj, glob, cnt)).1.2.1.facts.countP
            (fun f => decide (f.content = c.content ∧ f.predicate = c.predicate)) =
        glob.facts.countP
          (fun f => decide (f.content = c.content ∧ f.predicate = c.predicate)) + k) := by
  intro k
  induction k with
  | zero =>
    intro proj glob cnt
    simp [promoteItems]
  | succ k ih =>
    intro proj glob cnt
    rw [List.replicate_succ,
      promoteItems_cons_found embed cands i _ proj glob cnt c hc]
    obtain ⟨h1, h2, h3⟩ :=
      ih (updateFactScope proj c.factId none) (promoteGlobalStep embed glob c)
        (cnt + 1)
    refine ⟨?_, ?_, ?_⟩
    · rw [h1, promoteGlobalStep_facts]
      simp only [List.length_append, List.length_cons, List.length_nil]
      omega
    · rw [h2]
      omega
    · rw [h3, promoteGlobalStep_facts, List.countP_append]
      have hone : List.countP
          (fun f => decide (f.content = c.content ∧ f.predicate = c.predicate))
          [promotedFactRow embed glob c] = 1 := by
        have hp : (fun f : FactRow =>
            decide (f.content = c.content ∧ f.predicate = c.predicate))
            (promotedFactRow embed glob c) = true := by
          simp only [decide_eq_true_eq]
          exact promotedFactRow_fields embed glob c
        simp [List.countP_cons, hp]
        exact promotedFactRow_fields embed glob c
      rw [hone]
      omega

/-- C10: the operator's numeric selection is parsed without
deduplication — `parseSelection "2,2"` over 3 candidates yields the index
1 twice — and promoting the same valid candidate index `k` times appends
`k` copies of its fact to the (append-only) global layer and reports all
`k` occurrences in the promoted count. -/
theorem c10_duplicate_selection :
    parseSelection "2,2" 3 = [1, 1] ∧
    (∀ (embed : String → Emb) (cands : List CandidateFact) (i k : Nat)
       (c : CandidateFact) (proj glob : DbState),
      cands.get? i = some c →
      (promoteLoop embed cands (List.replicate k i) proj glob).2.1.facts.length =
          glob.facts.length + k ∧
      (promoteLoop embed cands (List.replicate k i) proj glob).2.2 = k ∧
      (promoteLoop embed cands (List.replicate k i) proj glob).2.1.facts.countP
          (fun f => decide (f.content = c.content ∧ f.predicate = c.predicate)) =
        glob.facts.countP
          (fun f => decide (f.content = c.content ∧ f.predicate = c.predicate)) + k) := by
  constructor
  · decide
  · intro embed cands i k c proj glob hc
    obtain ⟨h1, h2, h3⟩ := promoteItems_replicate embed cands i c hc k proj glob 0
    exact ⟨h1, by simpa using h2, h3⟩

/-- Witness for C10: promoting the single demo candidate twice (indices
`[0, 0]`) appends two copies to an empty global layer and reports 2. -/
theorem c10_duplicate_selection_witness :
    ([demoCandidate].get? 0 = some demoCandidate) ∧
    ((promoteLoop (fun _ => [1]) [demoCandidate] (List.replicate 2 0)
        emptyDb emptyDb).2.1.facts.length = emptyDb.facts.length + 2 ∧
     (promoteLoop (fun _ => [1]) [demoCandidate] (List.replicate 2 0)
        emptyDb emptyDb).2.2 = 2 ∧
     (promoteLoop (fun _ => [1]) [demoCandidate] (List.replicate 2 0)
        emptyDb emptyDb).2.1.facts.countP
          (fun f => decide (f.content = demoCandidate.content ∧
            f.predicate = demoCandidate.predicate)) =
       emptyDb.facts.countP
         (fun f => decide (f.content = demoCandidate.content ∧
           f.predicate = demoCandidate.predicate)) + 2) :=
  ⟨rfl, c10_duplicate_selection.2 (fun _ => [1]) [demoCandidate] 0 2
    demoCandidate emptyDb emptyDb rfl⟩

/-- C4 (code bug): the `runPromote` loop has no per-item error handling,
so with three selected candidates where embedding the second one fails,
the loop aborts at the failure — the first candidate's promotion persists
in the global layer (mutations are not rolled back), but the third
candidate, whose embeddings would all succeed, is never processed, only 1
promotion is counted, and the count is never reported because the error
propagates. -/
theorem c4_single_failure_aborts_batch :
    (promoteItems c4Embed [c4CandA, c4CandB, c4CandC] [0, 1, 2]
        (emptyDb, emptyDb, 0)).2 = some "embed failed" ∧
    (promoteItems c4Embed [c4CandA, c4CandB, c4CandC] [0, 1, 2]
        (emptyDb, emptyDb, 0)).1.2.2 = 1 ∧
    (promoteItems c4Embed [c4CandA, c4CandB, c4CandC] [0, 1, 2]
        (emptyDb, emptyDb, 0)).1.2.1.facts.length = 1 ∧
    (promoteItems c4Embed [c4CandA, c4CandB, c4CandC] [0, 1, 2]
        (emptyDb, emptyDb, 0)).1.2.1.facts.countP
      (fun f => decide (f.content = c4CandA.content)) = 1 ∧
    c4Embed c4CandC.subject = Except.ok [1] ∧
    c4Embed c4CandC.object = Except.ok [1] ∧
    c4Embed c4CandC.content = Except.ok [1] ∧
    (promoteItems c4Embed [c4CandA, c4CandB, c4CandC] [0, 1, 2]
        (emptyDb, emptyDb, 0)).1.2.1.facts.countP
      (fun f => decide (f.content = c4CandC.content)) = 0 := by
  decide

/-- Membership in the CTE levels is reachability by a path of at most `n`
hops (helper). -/
theorem mem_cteLevels (facts : List FactRow) :
    ∀ (n : Nat) (cur : List Nat) (x : Nat),
      x ∈ cteLevels facts cur n ↔ ∃ d, d ≤ n ∧ x ∈ nhops facts d cur := by
  intro n
  induction n with
  | zero =>
    intro cur x
    simp only [cteLevels]
    constructor
    · intro h
      exact ⟨0, le_refl _, by simpa [nhops] using h⟩
    · rintro ⟨d, hd, h⟩
      rw [Nat.le_zero.mp hd] at h
      simpa [nhops] using h
  | succ n ih =>
    intro cur x
    simp only [cteLevels, List.mem_append]
    rw [ih (neighbors facts cur) x]
    constructor
    · rintro (h | ⟨d, hd, h⟩)
      · exact ⟨0, Nat.zero_le _, by simpa [nhops] using h⟩
      · exact ⟨d + 1, Nat.succ_le_succ hd, by simpa [nhops] using h⟩
    · rintro ⟨d, hd, h⟩
      cases d with
      | zero => exact Or.inl (by simpa [nhops] using h)
      | succ d =>
        exact Or.inr ⟨d, Nat.le_of_succ_le_succ hd, by simpa [nhops] using h⟩

/-- The shortest-name fold returns its accumulator or a list element
(helper). -/
theorem foldl_pickShorter_mem :
    ∀ (l : List (Nat × String)) (acc : Option (Nat × String)) (e : Nat × String),
      l.foldl pickShorter acc = some e → acc = some e ∨ e ∈ l := by
  intro l
  induction l with
  | nil => intro acc e h; exact Or.inl h
  | cons a rest ih =>
    intro acc e h
    rcases ih (pickShorter acc a) e h with hacc | hmem
    · cases acc with
      | none =>
        have : a = e := by simpa [pickShorter] using hacc
        exact Or.inr (this ▸ List.mem_cons_self _ _)
      | some b =>
        by_cases hlen : a.2.length < b.2.length
        · have : a = e := by simpa [pickShorter, hlen] using hacc
          exact Or.inr (this ▸ List.mem_cons_self _ _)
        · have : b = e := by simpa [pickShorter, hlen] using hacc
          exact Or.inl (by rw [this])
    · exact Or.inr (List.mem_cons_of_mem _ hmem)

/-- A fuzzy match is one of the entity rows (helper). -/
theorem fuzzyFindEntity_mem {s : DbState} {q : String} {e : Nat × String}
    (h : fuzzyFindEntity s q = some e) : e ∈ s.entities := by
  rcases foldl_pickShorter_mem _ none e h with hacc | hmem
  · exact Option.noConfusion hacc
  · exact (List.mem_filter.mp hmem).1

/-- A successful name resolution is one of the entity rows (helper). -/
theorem nameOf_mem {s : DbState} {id : Nat} {nm : String}
    (h : nameOf s id = some nm) : (id, nm) ∈ s.entities := by
  rw [nameOf] at h
  cases hfind : s.entities.find? (fun e => decide (e.1 = id)) with
  | none => rw [hfind] at h; exact Option.noConfusion h
  | some entry =>
    rw [hfind] at h
    have h1 : entry.1 = id := by simpa using List.find?_some hfind
    have h2 : entry.2 = nm := Option.some.inj h
    have hmem := List.mem_of_find?_eq_some hfind
    rw [← h1, ← h2]
    exact hmem

/-- With unique names, two rows carrying the same name have the same id
(helper). -/
theorem nodup_names_id_eq :
    ∀ {l : List (Nat × String)}, (l.map (fun e => e.2)).Nodup →
      ∀ {a b : Nat} {nm : String}, (a, nm) ∈ l → (b, nm) ∈ l → a = b := by
  intro l
  induction l with
  | nil => intro _ a b nm ha; cases ha
  | cons x rest ih =>
    intro hnd a b nm ha hb
    rw [List.map_cons, List.nodup_cons] at hnd
    rcases List.mem_cons.mp ha with ha1 | ha1 <;>
      rcases List.mem_cons.mp hb with hb1 | hb1
    · exact congrArg Prod.fst (ha1.trans hb1.symm)
    · exfalso
      apply hnd.1
      rw [show x.2 = nm from by rw [← ha1]]
      exact List.mem_map.mpr ⟨(b, nm), hb1, rfl⟩
    · exfalso
      apply hnd.1
      rw [show x.2 = nm from by rw [← hb1]]
      exact List.mem_map.mpr ⟨(a, nm), ha1, rfl⟩
    · exact ih hnd.2 ha1 hb1

/-- Membership in the first-seen string dedup (helper). -/
theorem mem_dedupKeysGo_id :
    ∀ (l : List String) (seen : List String) (x : String),
      x ∈ dedupKeysGo (fun n => n) seen l ↔ x ∈ l ∧ x ∉ seen := by
  intro l
  induction l with
  | nil => intro seen x; simp [dedupKeysGo]
  | cons r rest ih =>
    intro seen x
    by_cases h : r ∈ seen
    · rw [show dedupKeysGo (fun n => n) seen (r :: rest) =
          dedupKeysGo (fun n => n) seen rest by simp [dedupKeysGo, h]]
      rw [ih seen x]
      constructor
      · rintro ⟨hx, hs⟩
        exact ⟨List.mem_cons_of_mem _ hx, hs⟩
      · rintro ⟨hx, hs⟩
        rcases List.mem_cons.mp hx with rfl | hx'
        · exact absurd h hs
        · exact ⟨hx', hs⟩
    · rw [show dedupKeysGo (fun n => n) seen (r :: rest) =
          r :: dedupKeysGo (fun n => n) (r :: seen) rest by simp [dedupKeysGo, h]]
      rw [List.mem_cons, ih (r :: seen) x]
      constructor
      · rintro (rfl | ⟨hx, hs⟩)
        · exact ⟨List.mem_cons_self _ _, h⟩
        · exact ⟨List.mem_cons_of_mem _ hx,
            fun hc => hs (List.mem_cons_of_mem _ hc)⟩
      · rintro ⟨hx, hs⟩
        rcases List.mem_cons.mp hx with rfl | hx'
        · exact Or.inl rfl
        · by_cases hxr : x = r
          · exact Or.inl hxr
          · exact Or.inr ⟨hx', by simp [List.mem_cons, hxr, hs]⟩

/-- Unfolding `graphTraverse` on a successful fuzzy match (helper). -/
theorem graphTraverse_some (s : DbState) (q : String) (depth : Int)
    (startId : Nat) (mname : String)
    (hf : fuzzyFindEntity s q = some (startId, mname)) :
    graphTraverse s q depth = some
      { matchedName := mname,
        entities := connectedNamesOf s startId depth.toNat,
        facts := graphFactsOf s
          (mname :: connectedNamesOf s startId depth.toNat) } := by
  simp only [graphTraverse, hf]

/-- Membership in the connected-names list of a traversal (helper). -/
theorem mem_connectedNamesOf (s : DbState) (startId : Nat) (rounds : Nat)
    (n : String) :
    n ∈ connectedNamesOf s startId rounds ↔
      ∃ id, id ≠ startId ∧ nameOf s id = some n ∧
        ∃ d, d ≤ rounds ∧ id ∈ nhops s.facts d [startId] := by
  rw [connectedNamesOf, mem_dedupKeysGo_id]
  simp only [List.mem_filterMap, List.mem_filter, decide_eq_true_eq,
    List.not_mem_nil, not_false_iff, and_true]
  constructor
  · rintro ⟨id, ⟨hidmem, hidne⟩, hname⟩
    obtain ⟨d, hd, hh⟩ := (mem_cteLevels s.facts rounds [startId] id).mp hidmem
    exact ⟨id, hidne, hname, d, hd, hh⟩
  · rintro ⟨id, hidne, hname, d, hd, hh⟩
    exact ⟨id, ⟨(mem_cteLevels s.facts rounds [startId] id).mpr ⟨d, hd, hh⟩,
      hidne⟩, hname⟩

/-- Membership in the facts list of a traversal (helper). -/
theorem mem_graphFactsOf (s : DbState) (allNames : List String)
    (r : GraphFactRow) :
    r ∈ graphFactsOf s allNames ↔
      ∃ f, f ∈ s.facts ∧ factToRow s f = some r ∧
        (r.subject ∈ allNames ∨ r.object ∈ allNames) := by
  rw [graphFactsOf]
  simp only [List.mem_filter, List.mem_filterMap, Bool.or_eq_true,
    decide_eq_true_eq]
  constructor
  · rintro ⟨⟨f, h1, h2⟩, h3⟩
    exact ⟨f, h1, h2, h3⟩
  · rintro ⟨f, h1, h2, h3⟩
    exact ⟨⟨f, h1, h2⟩, h3⟩

/-- Unfolding the dual traversal when both layers hit (helper). -/
theorem dualGraphTraverse_both (p g : DbState) (q : String) (depth : Int)
    (rp rg : GraphResult) (hp : graphTraverse p q depth = some rp)
    (hg : graphTraverse g q depth = some rg) :
    dualGraphTraverse p g q depth = some
      { matchedName := rp.matchedName,
        entities := dedupKeysGo (fun n => n) [] (rp.entities ++ rg.entities),
        facts := dedupKeysGo graphFactKey [] (rp.facts ++ rg.facts) } := by
  simp only [dualGraphTraverse, hp, hg]

/-- C8 counterexample: on the dual backend, when the two layers
fuzzy-resolve the query to different entities, the merged matched name
can appear in the merged connected-entities set — refuting "the matched
entity's own name never appears in the connected-entities set" for the
merged backend. -/
theorem c8_matched_name_counterexample :
    dualGraphTraverse c8Proj c8Glob "bill" 1 = some c8MergedResult ∧
    c8MergedResult.matchedName ∈ c8MergedResult.entities := by
  decide

/-- C8 (amended): on a single layer, a successful `graphTraverse` returns
the matched name, the set of names of entities reachable within `depth`
hops excluding the start entity (whose name never appears in it, given
the schema's name uniqueness), and exactly the facts whose subject or
object lies in {matched name} ∪ connected set.  On the dual backend with
both layers hitting, the result keeps the project layer's matched name
and unions the two layers' connected sets and fact sets; the matched name
is absent from the merged connected set whenever it is absent from both
layers' connected sets (in particular when both layers resolve the same
name), but can appear when the layers resolve different entities. -/
theorem c8_graph_traversal_amended :
    (∀ (s : DbState) (q : String) (depth : Int) (startId : Nat) (mname : String),
      (s.entities.map (fun e => e.2)).Nodup →
      fuzzyFindEntity s q = some (startId, mname) →
      ∃ res, graphTraverse s q depth = some res ∧
        res.matchedName = mname ∧
        (∀ n, n ∈ res.entities ↔ ∃ id, id ≠ startId ∧ nameOf s id = some n ∧
          ∃ d, d ≤ depth.toNat ∧ id ∈ nhops s.facts d [startId]) ∧
        mname ∉ res.entities ∧
        (∀ r, r ∈ res.facts ↔ ∃ f, f ∈ s.facts ∧ factToRow s f = some r ∧
          (r.subject = mname ∨ r.subject ∈ res.entities ∨
           r.object = mname ∨ r.object ∈ res.entities))) ∧
    (∀ (p g : DbState) (q : String) (depth : Int) (rp rg : GraphResult),
      graphTraverse p q depth = some rp →
      graphTraverse g q depth = some rg →
      ∃ res, dualGraphTraverse p g q depth = some res ∧
        res.matchedName = rp.matchedName ∧
        (∀ n, n ∈ res.entities ↔ (n ∈ rp.entities ∨ n ∈ rg.entities)) ∧
        (rp.matchedName ∉ rp.entities → rp.matchedName ∉ rg.entities →
          res.matchedName ∉ res.entities)) := by
  constructor
  · intro s q depth startId mname hnd hf
    refine ⟨{ matchedName := mname,
              entities := connectedNamesOf s startId depth.toNat,
              facts := graphFactsOf s
                (mname :: connectedNamesOf s startId depth.toNat) },
      graphTraverse_some s q depth startId mname hf, rfl, ?_, ?_, ?_⟩ <;>
      dsimp only
    · intro n
      exact mem_connectedNamesOf s startId depth.toNat n
    · intro hmem
      obtain ⟨id, hidne, hname, -⟩ :=
        (mem_connectedNamesOf s startId depth.toNat mname).mp hmem
      exact hidne (nodup_names_id_eq hnd (nameOf_mem hname)
        (fuzzyFindEntity_mem hf))
    · intro r
      rw [mem_graphFactsOf]
      simp only [List.mem_cons]
      constructor
      · rintro ⟨f, h1, h2, h3⟩
        exact ⟨f, h1, h2, or_assoc.mp h3⟩
      · rintro ⟨f, h1, h2, h3⟩
        exact ⟨f, h1, h2, or_assoc.mpr h3⟩
  · intro p g q depth rp rg hp hg
    refine ⟨{ matchedName := rp.matchedName,
              entities := dedupKeysGo (fun n => n) []
                (rp.entities ++ rg.entities),
              facts := dedupKeysGo graphFactKey [] (rp.facts ++ rg.facts) },
      dualGraphTraverse_both p g q depth rp rg hp hg, rfl, ?_, ?_⟩ <;>
      dsimp only
    · intro n
      rw [mem_dedupKeysGo_id]
      simp [List.mem_append]
    · intro hp1 hg1 hmem
      rcases List.mem_append.mp ((mem_dedupKeysGo_id _ [] _).mp hmem).1 with h | h
      · exact hp1 h
      · exact hg1 h

/-- Witness for C8 (amended) on the demo store: depth-1 traversal from
the fuzzy query "bill". -/
theorem c8_graph_traversal_amended_witness :
    ((demoStore.entities.map (fun e => e.2)).Nodup) ∧
    (fuzzyFindEntity demoStore "bill" = some (1, "billing")) ∧
    (∃ res, graphTraverse demoStore "bill" 1 = some res ∧
      res.matchedName = "billing" ∧
      (∀ n, n ∈ res.entities ↔ ∃ id, id ≠ 1 ∧ nameOf demoStore id = some n ∧
        ∃ d, d ≤ (1 : Int).toNat ∧ id ∈ nhops demoStore.facts d [1]) ∧
      "billing" ∉ res.entities ∧
      (∀ r, r ∈ res.facts ↔ ∃ f, f ∈ demoStore.facts ∧
        factToRow demoStore f = some r ∧
        (r.subject = "billing" ∨ r.subject ∈ res.entities ∨
         r.object = "billing" ∨ r.object ∈ res.entities))) :=
  ⟨by decide, by decide,
   c8_graph_traversal_amended.1 demoStore "bill" 1 1 "billing"
     (by decide) (by decide)⟩

/-- `findOrCreateEntity` leaves the fact counter unchanged (helper). -/
theorem foce_nextFactId (s : DbState) (n : String) (e : Emb) :
    (findOrCreateEntity s n e).2.nextFactId = s.nextFactId := by
  by_cases h : s.entities.any (fun x => decide (x.2 = n)) <;>
    simp [findOrCreateEntity, h]

/-- `findOrCreateEntity` leaves the entity counter at or above its old
value and preserves well-formedness (helper). -/
theorem foce_wf (s : DbState) (n : String) (e : Emb) (h : Wf s) :
    Wf (findOrCreateEntity s n e).2 := by
  obtain ⟨h1, h2, h3, h4⟩ := h
  by_cases hany : s.entities.any (fun x => decide (x.2 = n))
  · have hsta : (findOrCreateEntity s n e).2.entities = s.entities := by
      rw [foce_entities, if_pos hany]
    have hstb : (findOrCreateEntity s n e).2.nextEntityId = s.nextEntityId := by
      simp [findOrCreateEntity, hany]
    refine ⟨?_, ?_, ?_, ?_⟩
    · rw [hsta]; exact h1
    · rw [hsta, hstb]; exact h2
    · rw [foce_factEmbeddings, foce_nextFactId]; exact h3
    · rw [foce_facts, foce_nextFactId]; exact h4
  · have hsta : (findOrCreateEntity s n e).2.entities =
        s.entities ++ [(s.nextEntityId, n)] := by
      rw [foce_entities, if_neg hany]
    have hstb : (findOrCreateEntity s n e).2.nextEntityId =
        s.nextEntityId + 1 := by
      simp [findOrCreateEntity, hany]
    refine ⟨?_, ?_, ?_, ?_⟩
    · rw [hsta, List.map_append]
      rw [List.Perm.nodup_iff (List.perm_append_comm)]
      rw [List.map_singleton, List.singleton_append, List.nodup_cons]
      refine ⟨?_, h1⟩
      intro hmem
      obtain ⟨x, hx, hx1⟩ := List.mem_map.mp hmem
      exact absurd (hx1 ▸ h2 x hx) (lt_irrefl _)
    · rw [hsta, hstb]
      intro x hx
      rcases List.mem_append.mp hx with hx' | hx'
      · exact Nat.lt_succ_of_lt (h2 x hx')
      · rw [List.mem_singleton.mp hx']
        exact Nat.lt_succ_self _
    · rw [foce_factEmbeddings, foce_nextFactId]; exact h3
    · rw [foce_facts, foce_nextFactId]; exact h4

/-- The global-layer promotion step increments the fact counter (helper). -/
theorem promoteGlobalStep_nextFactId (embed : String → Emb) (glob : DbState)
    (c : CandidateFact) :
    (promoteGlobalStep embed glob c).nextFactId = glob.nextFactId + 1 := by
  simp only [promoteGlobalStep]
  rw [foce_nextFactId, foce_nextFactId]

/-- The global-layer promotion step preserves well-formedness (helper). -/
theorem promoteGlobalStep_wf (embed : String → Emb) (glob : DbState)
    (c : CandidateFact) (h : Wf glob) : Wf (promoteGlobalStep embed glob c) := by
  have h2 := foce_wf _ c.object (embed c.object)
    (foce_wf glob c.subject (embed c.subject) h)
  obtain ⟨ha, hb, hc', hd⟩ := h2
  refine ⟨ha, hb, ?_, ?_⟩
  · intro p hp
    rcases List.mem_append.mp hp with h' | h'
    · exact Nat.lt_succ_of_lt (hc' p h')
    · rw [List.mem_singleton.mp h']
      exact Nat.lt_succ_self _
  · intro f hf
    rcases List.mem_append.mp hf with h' | h'
    · exact Nat.lt_succ_of_lt (hd f h')
    · rw [List.mem_singleton.mp h']
      exact Nat.lt_succ_self _

/-- With unique entity ids, a row's id resolves to its name (helper). -/
theorem nameOf_of_mem_nodup {s : DbState}
    (hnd : (s.entities.map (fun e => e.1)).Nodup) {id : Nat} {nm : String}
    (h : (id, nm) ∈ s.entities) : nameOf s id = some nm := by
  rw [nameOf]
  suffices hgen : ∀ l : List (Nat × String), (l.map (fun e => e.1)).Nodup →
      (id, nm) ∈ l →
      (l.find? (fun e => decide (e.1 = id))).map (fun e => e.2) = some nm by
    exact hgen s.entities hnd h
  intro l
  induction l with
  | nil => intro _ hmem; cases hmem
  | cons x rest ih =>
    intro hnd' hmem
    rw [List.map_cons, List.nodup_cons] at hnd'
    by_cases hx : x.1 = id
    · rw [List.find?_cons_of_pos _ (by simp [hx])]
      rcases List.mem_cons.mp hmem with he | he
      · rw [← he]
        rfl
      · exact absurd (hx ▸ List.mem_map.mpr ⟨(id, nm), he, rfl⟩) hnd'.1
    · rw [List.find?_cons_of_neg _ (by simp [hx])]
      apply ih hnd'.2
      rcases List.mem_cons.mp hmem with he | he
      · exact absurd (by rw [← he]) hx
      · exact he

/-- Appending a fresh row makes the lookup find it (helper). -/
theorem lookupEmb_append_fresh (m : List (Nat × Emb)) (id : Nat) (e : Emb)
    (h : ∀ p ∈ m, p.1 ≠ id) : lookupEmb (m ++ [(id, e)]) id = some e := by
  rw [lookupEmb, find?_append_none]
  · simp [List.find?]
  · rw [List.find?_eq_none]
    intro x hx
    simp [h x hx]

/-- Appending rows never changes an existing lookup result (helper). -/
theorem lookupEmb_append_some (m l₂ : List (Nat × Emb)) (id : Nat) (e : Emb)
    (h : lookupEmb m id = some e) : lookupEmb (m ++ l₂) id = some e := by
  rw [lookupEmb] at h ⊢
  cases hfind : m.find? (fun p => decide (p.1 = id)) with
  | none => rw [hfind] at h; exact Option.noConfusion h
  | some entry =>
    rw [find?_append_some _ hfind]
    rw [hfind] at h
    exact h

/-- `findOrCreateEntity` never changes an existing name resolution
(helper). -/
theorem foce_nameOf_mono (s : DbState) (n : String) (e : Emb) (id : Nat)
    (nm : String) (h : nameOf s id = some nm) :
    nameOf (findOrCreateEntity s n e).2 id = some nm := by
  rw [nameOf] at h ⊢
  rw [foce_entities]
  by_cases hany : s.entities.any (fun x => decide (x.2 = n))
  · rw [if_pos hany]
    exact h
  · rw [if_neg hany]
    cases hfind : s.entities.find? (fun e' => decide (e'.1 = id)) with
    | none => rw [hfind] at h; exact Option.noConfusion h
    | some entry =>
      rw [find?_append_some _ hfind]
      rw [hfind] at h
      exact h

/-- One promotion step establishes the global-layer effect for its own
candidate (helper). -/
theorem promoteGlobalStep_establishes (embed : String → Emb) (glob : DbState)
    (c : CandidateFact) (oldIds : List Nat) (hwf : Wf glob)
    (hold : OldIdsBelow oldIds glob) :
    GlobalHasFact embed c oldIds (promoteGlobalStep embed glob c) := by
  have hwf2 := foce_wf _ c.object (embed c.object)
    (foce_wf glob c.subject (embed c.subject) hwf)
  refine ⟨promotedFactRow embed glob c, ?_, ?_, ?_, rfl, ?_, rfl, ?_⟩
  · rw [promoteGlobalStep_facts]
    exact List.mem_append.mpr (Or.inr (List.mem_singleton.mpr rfl))
  · intro hmem
    have hid : (promotedFactRow embed glob c).id = glob.nextFactId := by
      simp only [promotedFactRow]
      rw [foce_nextFactId, foce_nextFactId]
    exact absurd (hid ▸ hold _ hmem) (lt_irrefl _)
  · exact nameOf_of_mem_nodup hwf2.1
      (foce_entities_mono _ _ _ _ (foce_id_mem glob c.subject (embed c.subject)))
  · exact nameOf_of_mem_nodup hwf2.1
      (foce_id_mem (findOrCreateEntity glob c.subject (embed c.subject)).2
        c.object (embed c.object))
  · apply lookupEmb_append_fresh
    intro p hp
    exact Nat.ne_of_lt (hwf2.2.2.1 p hp)

/-- One promotion step preserves the global-layer effect of earlier
candidates (helper). -/
theorem promoteGlobalStep_preserves_has (embed : String → Emb) (glob : DbState)
    (c c' : CandidateFact) (oldIds : List Nat)
    (h : GlobalHasFact embed c oldIds glob) :
    GlobalHasFact embed c oldIds (promoteGlobalStep embed glob c') := by
  obtain ⟨gf, h1, h2, h3, h4, h5, h6, h7⟩ := h
  refine ⟨gf, ?_, h2, ?_, h4, ?_, h6, ?_⟩
  · rw [promoteGlobalStep_facts]
    exact List.mem_append.mpr (Or.inl h1)
  · exact foce_nameOf_mono
      (findOrCreateEntity glob c'.subject (embed c'.subject)).2 c'.object
      (embed c'.object) gf.subjectId c.subject
      (foce_nameOf_mono glob c'.subject (embed c'.subject) gf.subjectId
        c.subject h3)
  · exact foce_nameOf_mono
      (findOrCreateEntity glob c'.subject (embed c'.subject)).2 c'.object
      (embed c'.object) gf.objectId c.object
      (foce_nameOf_mono glob c'.subject (embed c'.subject) gf.objectId
        c.object h5)
  · rw [promoteGlobalStep_factEmbeddings]
    exact lookupEmb_append_some _ _ _ _ h7

/-- One promotion step keeps all snapshot ids below the fact counter
(helper). -/
theorem promoteGlobalStep_oldIds (embed : String → Emb) (glob : DbState)
    (c' : CandidateFact) (oldIds : List Nat) (h : OldIdsBelow oldIds glob) :
    OldIdsBelow oldIds (promoteGlobalStep embed glob c') := by
  intro id hid
  rw [promoteGlobalStep_nextFactId]
  exact Nat.lt_succ_of_lt (h id hid)

/-- `updateFactScope` keeps a fact's non-scope columns (helper). -/
theorem updateFactScope_keeps_like (s : DbState) (c : CandidateFact)
    (f0 : FactRow) (fid : Nat) (h : HasFactLike c f0 s) :
    HasFactLike c f0 (updateFactScope s fid none) := by
  obtain ⟨f1, hm, hid, hs, hp, ho, hc'⟩ := h
  by_cases h' : f1.id = fid
  · exact ⟨{ f1 with scopeCandidate := none },
      List.mem_map.mpr ⟨f1, hm, by simp [h']⟩, hid, hs, hp, ho, hc'⟩
  · exact ⟨f1, List.mem_map.mpr ⟨f1, hm, by simp [h']⟩, hid, hs, hp, ho, hc'⟩

/-- Clearing the candidate's fact id establishes the project-layer
effect (helper). -/
theorem updateFactScope_clears (s : DbState) (c : CandidateFact)
    (f0 : FactRow) (h : HasFactLike c f0 s) :
    ProjectCleared c f0 (updateFactScope s c.factId none) := by
  obtain ⟨f1, hm, hid, hs, hp, ho, hc'⟩ := h
  constructor
  · exact ⟨{ f1 with scopeCandidate := none },
      List.mem_map.mpr ⟨f1, hm, by simp [hid]⟩, hid, rfl, hs, hp, ho, hc'⟩
  · intro f hf hfid
    obtain ⟨f', hf', himg⟩ := List.mem_map.mp hf
    by_cases h' : f'.id = c.factId
    · rw [← himg]
      simp [h']
    · rw [← himg] at hfid
      simp [h'] at hfid

/-- Later clears (always to `none`) preserve the project-layer effect
(helper). -/
theorem updateFactScope_keeps_cleared (s : DbState) (c : CandidateFact)
    (f0 : FactRow) (fid : Nat) (h : ProjectCleared c f0 s) :
    ProjectCleared c f0 (updateFactScope s fid none) := by
  obtain ⟨⟨f1, hm, hid, hsc, hs, hp, ho, hc'⟩, hall⟩ := h
  constructor
  · by_cases h' : f1.id = fid
    · exact ⟨{ f1 with scopeCandidate := none },
        List.mem_map.mpr ⟨f1, hm, by simp [h']⟩, hid, rfl, hs, hp, ho, hc'⟩
    · exact ⟨f1, List.mem_map.mpr ⟨f1, hm, by simp [h']⟩, hid, hsc, hs, hp,
        ho, hc'⟩
  · intro f hf hfid
    obtain ⟨f', hf', himg⟩ := List.mem_map.mp hf
    by_cases h' : f'.id = fid
    · rw [← himg]
      simp [h']
    · rw [← himg]
      simp only [h', if_false]
      apply hall f' hf'
      rw [← himg] at hfid
      simpa [h'] using hfid

/-- Skipping an invalid index leaves the loop state unchanged (helper). -/
theorem promoteItems_cons_none (embed : String → Emb)
    (cands : List CandidateFact) (idx : Nat) (rest : List Nat)
    (proj glob : DbState) (cnt : Nat) (hc : cands.get? idx = none) :
    promoteItems (fun t => Except.ok (embed t)) cands (idx :: rest)
        (proj, glob, cnt) =
      promoteItems (fun t => Except.ok (embed t)) cands rest
        (proj, glob, cnt) := by
  simp only [promoteItems, hc]

/-- The promotion effects, once established, survive the rest of the
loop (helper). -/
theorem promoteItems_invariant (embed : String → Emb)
    (cands : List CandidateFact) (c : CandidateFact) (f0 : FactRow)
    (oldIds : List Nat) :
    ∀ (indices : List Nat) (proj glob : DbState) (cnt : Nat),
      GlobalHasFact embed c oldIds glob → ProjectCleared c f0 proj →
      GlobalHasFact embed c oldIds
        (promoteItems (fun t => Except.ok (embed t)) cands indices
          (proj, glob, cnt)).1.2.1 ∧
      ProjectCleared c f0
        (promoteItems (fun t => Except.ok (embed t)) cands indices
          (proj, glob, cnt)).1.1 := by
  intro indices
  induction indices with
  | nil => intro proj glob cnt hg hp; exact ⟨hg, hp⟩
  | cons idx rest ih =>
    intro proj glob cnt hg hp
    cases hidx : cands.get? idx with
    | none =>
      rw [promoteItems_cons_none embed cands idx rest proj glob cnt hidx]
      exact ih _ _ _ hg hp
    | some c' =>
      rw [promoteItems_cons_found embed cands idx rest proj glob cnt c' hidx]
      exact ih _ _ _ (promoteGlobalStep_preserves_has embed glob c c' oldIds hg)
        (updateFactScope_keeps_cleared proj c f0 c'.factId hp)

/-- Processing a valid selected index establishes the promotion effects
(helper). -/
theorem promoteItems_establishes (embed : String → Emb)
    (cands : List CandidateFact) (i : Nat) (c : CandidateFact) (f0 : FactRow)
    (oldIds : List Nat) (hc : cands.get? i = some c) :
    ∀ (indices : List Nat) (proj glob : DbState) (cnt : Nat),
      Wf glob → OldIdsBelow oldIds glob → HasFactLike c f0 proj →
      i ∈ indices →
      GlobalHasFact embed c oldIds
        (promoteItems (fun t => Except.ok (embed t)) cands indices
          (proj, glob, cnt)).1.2.1 ∧
      ProjectCleared c f0
        (promoteItems (fun t => Except.ok (embed t)) cands indices
          (proj, glob, cnt)).1.1 := by
  intro indices
  induction indices with
  | nil => intro _ _ _ _ _ _ hmem; exact absurd hmem (List.not_mem_nil _)
  | cons idx rest ih =>
    intro proj glob cnt hwf hold hlike hmem
    cases hidx : cands.get? idx with
    | none =>
      rw [promoteItems_cons_none embed cands idx rest proj glob cnt hidx]
      rcases List.mem_cons.mp hmem with rfl | hmem'
      · rw [hidx] at hc
        exact Option.noConfusion hc
      · exact ih _ _ _ hwf hold hlike hmem'
    | some c' =>
      rw [promoteItems_cons_found embed cands idx rest proj glob cnt c' hidx]
      rcases List.mem_cons.mp hmem with rfl | hmem'
      · have hcc : c' = c := by
          rw [hidx] at hc
          exact Option.some.inj hc
        subst hcc
        exact promoteItems_invariant embed cands c' f0 oldIds rest _ _ _
          (promoteGlobalStep_establishes embed glob c' oldIds hwf hold)
          (updateFactScope_clears proj c' f0 hlike)
      · exact ih _ _ _ (promoteGlobalStep_wf embed glob c' hwf)
          (promoteGlobalStep_oldIds embed glob c' oldIds hold)
          (updateFactScope_keeps_like proj c f0 c'.factId hlike) hmem'

/-- A candidate listing entry comes from a fact row tagged with that
scope (helper). -/
theorem getCandidateFacts_mem (s : DbState) (scope : Scope)
    (cf : CandidateFact) (h : cf ∈ getCandidateFacts s scope) :
    ∃ f, f ∈ s.facts ∧ f.scopeCandidate = some scope ∧ cf.factId = f.id := by
  rw [getCandidateFacts] at h
  obtain ⟨f, hf, himg⟩ := List.mem_filterMap.mp h
  have hscope : f.scopeCandidate = some scope := by
    have := (List.mem_filter.mp hf).2
    simpa using this
  have hmem : f ∈ s.facts := (List.mem_filter.mp hf).1
  cases h1 : nameOf s f.subjectId with
  | none => rw [h1] at himg; exact Option.noConfusion himg
  | some subj =>
    cases h2 : nameOf s f.objectId with
    | none => rw [h1, h2] at himg; exact Option.noConfusion himg
    | some obj =>
      rw [h1, h2] at himg
      refine ⟨f, hmem, hscope, ?_⟩
      rw [← Option.some.inj himg]

/-- C2: for a candidate selected in the promotion loop, after the loop
completes the global layer holds a new fact (id not among the snapshot
of pre-existing global fact ids) with the candidate's subject name,
predicate, object name and content, whose stored embedding is freshly
derived from the content; the original project fact still exists with
its candidate tag set to `none`, and no fact with its id appears in a
subsequent candidate listing. -/
theorem c2_promotion_effect :
    ∀ (embed : String → Emb) (cands : List CandidateFact)
      (indices : List Nat) (proj glob : DbState) (i : Nat)
      (c : CandidateFact) (f0 : FactRow),
      Wf glob → i ∈ indices → cands.get? i = some c →
      f0 ∈ proj.facts → f0.id = c.factId →
      GlobalHasFact embed c (glob.facts.map (fun f => f.id))
        (promoteLoop embed cands indices proj glob).2.1 ∧
      ProjectCleared c f0 (promoteLoop embed cands indices proj glob).1 ∧
      (∀ cf ∈ getCandidateFacts (promoteLoop embed cands indices proj glob).1
          Scope.global, cf.factId ≠ c.factId) := by
  intro embed cands indices proj glob i c f0 hwf hmem hc hf0 hf0id
  have hold : OldIdsBelow (glob.facts.map (fun f => f.id)) glob := by
    intro id hid
    obtain ⟨f, hf, hfe⟩ := List.mem_map.mp hid
    exact hfe ▸ hwf.2.2.2 f hf
  have hlike : HasFactLike c f0 proj := ⟨f0, hf0, hf0id, rfl, rfl, rfl, rfl⟩
  obtain ⟨hg, hp⟩ := promoteItems_establishes embed cands i c f0 _ hc indices
    proj glob 0 hwf hold hlike hmem
  refine ⟨hg, hp, ?_⟩
  intro cf hcf heq
  obtain ⟨f, hfm, hfscope, hfid⟩ :=
    getCandidateFacts_mem _ Scope.global cf hcf
  have hnone := hp.2 f hfm (by rw [← hfid, heq])
  rw [hnone] at hfscope
  exact Option.noConfusion hfscope

/-- Witness for C2: promoting the demo candidate from the concrete
project layer into an empty global layer. -/
theorem c2_promotion_effect_witness :
    Wf emptyDb ∧ (0 ∈ [0]) ∧
    ([demoCandidate].get? 0 = some demoCandidate) ∧
    c2Fact ∈ c2Proj.facts ∧ c2Fact.id = demoCandidate.factId ∧
    (GlobalHasFact (fun _ => [1]) demoCandidate
        (emptyDb.facts.map (fun f => f.id))
        (promoteLoop (fun _ => [1]) [demoCandidate] [0] c2Proj emptyDb).2.1 ∧
      ProjectCleared demoCandidate c2Fact
        (promoteLoop (fun _ => [1]) [demoCandidate] [0] c2Proj emptyDb).1 ∧
      (∀ cf ∈ getCandidateFacts
          (promoteLoop (fun _ => [1]) [demoCandidate] [0] c2Proj emptyDb).1
          Scope.global, cf.factId ≠ demoCandidate.factId)) :=
  ⟨by unfold Wf; decide, by decide, rfl, by decide, rfl,
   c2_promotion_effect (fun _ => [1]) [demoCandidate] [0] c2Proj emptyDb 0
     demoCandidate c2Fact (by unfold Wf; decide) (by decide) rfl
     (by decide) rfl⟩

/-- C5: opening a store whose recorded embedding dimension differs from the
configured one fails with a message naming both dimensions (so no query is
ever served on such a store); when no dimension is recorded the configured
one is recorded, and when they agree construction succeeds; every
successful construction ends with the configured dimension recorded. -/
theorem c5_dimension_lock :
    (∀ (s : DbState) (cfg stored : Nat), s.metaDim = some stored → stored ≠ cfg →
      ∃ pre mid post, initDb s cfg =
        Except.error (pre ++ toString stored ++ mid ++ toString cfg ++ post)) ∧
    (∀ (s : DbState) (cfg : Nat), s.metaDim = some cfg → initDb s cfg = Except.ok s) ∧
    (∀ (s : DbState) (cfg : Nat), s.metaDim = none →
      initDb s cfg = Except.ok { s with metaDim := some cfg }) ∧
    (∀ (s s' : DbState) (cfg : Nat), initDb s cfg = Except.ok s' →
      s'.metaDim = some cfg) := by
  refine ⟨?_, ?_, ?_, ?_⟩
  · intro s cfg stored hmeta hne
    refine ⟨"Embedding dimension mismatch: database was created with dim=",
      ", but current config has dim=",
      ". Either use EMBEDDING_DIM=" ++ toString stored ++ " or start with a fresh database.",
      ?_⟩
    simp only [initDb, hmeta, if_pos hne, dimMismatchMsg]
    simp only [string_append_assoc]
  · intro s cfg hmeta
    simp [initDb, hmeta]
  · intro s cfg hmeta
    simp [initDb, hmeta]
  · intro s s' cfg hok
    rcases hmeta : s.metaDim with _ | stored
    · simp only [initDb, hmeta] at hok
      cases hok
      rfl
    · simp only [initDb, hmeta] at hok
      by_cases hne : stored ≠ cfg
      · rw [if_pos hne] at hok
        exact Except.noConfusion hok
      · rw [if_neg hne] at hok
        cases hok
        push_neg at hne
        rw [hmeta, hne]

/-- Witness for C5: a store recorded at dimension 384 opened with configured
dimension 768 fails with a message mentioning both 384 and 768. -/
theorem c5_dimension_lock_witness :
    ∃ pre mid post,
      initDb { emptyDb with metaDim := some 384 } 768 =
        Except.error (pre ++ toString 384 ++ mid ++ toString 768 ++ post) :=
  c5_dimension_lock.1 { emptyDb with metaDim := some 384 } 768 384 rfl (by decide)

end ClaudeMemory
